import Mathlib

/-!
Verification of the string-processing and persistence logic of the
`exploratory-data-analyses` repository (Turkish-officials scraping and
analysis scripts).

Strings are modelled as `List Char`.  Python-specific behaviour
(`str.strip`, `str.lower`, substring tests with `in`, and the specific
regular expressions appearing in the scripts) is embedded as executable
Lean functions, translated from the source files

  * `src/scripts/scrape_biographical_info.py`
  * `src/create_birthplace_map.py`
  * `src/analyze_birthplaces.py`
  * `src/count_unique_people.py`
-/

set_option maxRecDepth 8000

namespace EDA

/-- Whitespace characters recognised by Python's `str.strip()` and the regex
class `\s` (restricted to the ASCII range, which covers this corpus). -/
def pySpace (c : Char) : Bool :=
  c = ' ' || c = '\t' || c = '\n' || c = '\r' || c = '\x0b' || c = '\x0c'

/-- Python `str.strip()` with no argument: drop leading and trailing whitespace. -/
def pyStrip (l : List Char) : List Char :=
  ((l.dropWhile pySpace).reverse.dropWhile pySpace).reverse

/-- Python `str.strip('., ')`: drop leading and trailing characters from the set
`{.{}, ,, space}` (used in `extract_birth_info`). -/
def stripDotCommaSpace (l : List Char) : List Char :=
  let mem := fun c => c = '.' || c = ',' || c = ' '
  ((l.dropWhile mem).reverse.dropWhile mem).reverse

/-- Python `place.split(',')`: split at every comma; the result always has one
more element than the number of commas (so it is never empty). -/
def pySplitComma : List Char → List (List Char)
  | [] => [[]]
  | c :: rest =>
    if c = ',' then [] :: pySplitComma rest
    else
      match pySplitComma rest with
      | [] => [[c]]
      | p :: ps => (c :: p) :: ps

/-- Python `str.lower()` for one character.  ASCII letters are lowered
arithmetically; the Turkish uppercase letters occurring in this corpus are
mapped explicitly.  As in Python (which is not locale aware), `İ` lowers to
the two-character sequence `i` + combining dot above (U+0307), and `I`
lowers to plain `i`.  Other characters are unchanged. -/
def pyLowerChar (c : Char) : List Char :=
  if c = 'İ' then ['i', '̇']
  else if c = 'Ç' then ['ç']
  else if c = 'Ğ' then ['ğ']
  else if c = 'Ö' then ['ö']
  else if c = 'Ş' then ['ş']
  else if c = 'Ü' then ['ü']
  else if c = 'Â' then ['â']
  else if c = 'Î' then ['î']
  else if c = 'Û' then ['û']
  else if 'A' ≤ c ∧ c ≤ 'Z' then [Char.ofNat (c.toNat + 32)]
  else [c]

/-- Python `str.lower()` on a whole string. -/
def pyLower (l : List Char) : List Char :=
  (l.map pyLowerChar).flatten

/-- Python's substring test `p in l` (contiguous containment; the empty string
is contained in everything). -/
def isSubstring (p l : List Char) : Bool :=
  decide (p <:+: l)

/-! ## `is_person_page` (src/scripts/scrape_biographical_info.py, lines 20-35) -/

/-- The `exclude_patterns` list of `is_person_page`. -/
def excludePatterns : List (List Char) :=
  ["Dosya:".toList, "File:".toList, "listesi".toList, "_list".toList,
   "genel_seçim".toList, "seçimleri".toList, "milletvekil".toList, "dönem".toList,
   "Kategori:".toList, "Category:".toList, "Vikipedi:".toList, "Wikipedia:".toList]

/-- Translation of `is_person_page`: reject empty URLs, URLs not containing
`wikipedia.org`, and URLs containing any exclusion pattern. -/
def is_person_page (url : List Char) : Bool :=
  if url.isEmpty || !(isSubstring "wikipedia.org".toList url) then false
  else !(excludePatterns.any (fun p => isSubstring p url))

/-- C2: `is_person_page url` returns true iff `url` is non-empty, contains
`wikipedia.org`, and contains none of the twelve exclusion substrings; in
particular every URL containing one of those substrings is rejected. -/
theorem is_person_page_characterization (url : List Char) :
    is_person_page url = true ↔
      url ≠ [] ∧ "wikipedia.org".toList <:+: url ∧
        ∀ p ∈ excludePatterns, ¬ p <:+: url := by
  unfold is_person_page isSubstring
  by_cases hA : url.isEmpty <;>
    by_cases hB : "wikipedia.org".toList <:+: url <;>
      simp_all [List.isEmpty_iff, List.any_eq_true]

/-! ## Country-suffix stripping

Both `normalize_city` (src/create_birthplace_map.py, line 104) and
`clean_city_name` (src/analyze_birthplaces.py, line 19) run

  `re.sub(r',\s*(Türkiye|Osmanlı İmparatorluğu|Osmanlı Devleti|Osmanlı|Turkey).*$', '', s)`

We model Python `re` semantics exactly: the scan looks for the leftmost
position holding a comma followed (after a greedy `\s*` munch, which cannot
backtrack since every alternative starts with a non-space letter) by one of
the five alternatives; `.*` cannot cross a newline and `$` matches at the end
of the string or just before one final trailing newline, which in that case
survives the substitution.  At most one substitution can happen because the
matched region extends to the end (or to the final newline, which cannot
start a new match). -/

/-- The five alternatives of the suffix-stripping regex, in alternation order. -/
def countrySuffixes : List (List Char) :=
  ["Türkiye".toList, "Osmanlı İmparatorluğu".toList, "Osmanlı Devleti".toList,
   "Osmanlı".toList, "Turkey".toList]

/-- True when the list contains no newline character. -/
def noNewline (l : List Char) : Bool :=
  l.all (fun c => !(c = '\n'))

/-- Whether the regex fragment `.*$` matches the whole remainder `t`
(Python semantics: `.` never matches a newline and `$` also matches just
before one trailing newline). -/
def dotStarDollarOk (t : List Char) : Bool :=
  noNewline t || (t.getLast? = some '\n' && noNewline t.dropLast)

/-- The part of the remainder left unconsumed by `.*$` (a lone trailing
newline when `$` matched in front of it, nothing otherwise). -/
def dotStarLeftover (t : List Char) : List Char :=
  if noNewline t then [] else ['\n']

/-- Try the five alternatives in order against `u`; on the first alternative
that is a prefix of `u` and whose remainder is accepted by `.*$`, return that
remainder. -/
def litMatchRest (u : List Char) : Option (List Char) :=
  countrySuffixes.findSome? (fun lit =>
    if lit.isPrefixOf u && dotStarDollarOk (u.drop lit.length) then
      some (u.drop lit.length)
    else none)

/-- Given the text following a comma, decide whether the rest of the pattern
(`\s*(alternatives).*$`) matches there, and if so return what the
substitution leaves behind after the comma position. -/
def afterCommaMatch (rest : List Char) : Option (List Char) :=
  (litMatchRest (rest.dropWhile pySpace)).map dotStarLeftover

/-- The full `re.sub`: scan left to right for the first comma at which the
pattern matches and cut the string there (keeping a trailing newline when `$`
matched in front of it). -/
def stripCountry : List Char → List Char
  | [] => []
  | c :: rest =>
    if c = ',' then
      match afterCommaMatch rest with
      | some leftover => leftover
      | none => c :: stripCountry rest
    else c :: stripCountry rest

/-- The comma-separated, individually stripped parts of the suffix-stripped
birthplace (`[p.strip() for p in place.split(',')]`). -/
def birthplaceParts (l : List Char) : List (List Char) :=
  (pySplitComma (stripCountry l)).map pyStrip

/-! ## `CITY_MAPPING` and `normalize_city` (src/create_birthplace_map.py) -/

/-- The `CITY_MAPPING` dict of src/create_birthplace_map.py, lines 17-96, as
an association list in dict iteration order.  The source literal assigns the
key `'şanlıurfa'` twice with the same value; Python dict semantics keep one
entry at the first position, which is what this list records. -/
def CITY_MAPPING : List (List Char × List Char) :=
  [("istanbul".toList, "İstanbul".toList),
   ("ankara".toList, "Ankara".toList),
   ("izmir".toList, "İzmir".toList),
   ("bursa".toList, "Bursa".toList),
   ("antalya".toList, "Antalya".toList),
   ("adana".toList, "Adana".toList),
   ("konya".toList, "Konya".toList),
   ("gaziantep".toList, "Gaziantep".toList),
   ("şanlıurfa".toList, "Şanlıurfa".toList),
   ("kocaeli".toList, "Kocaeli".toList),
   ("mersin".toList, "Mersin".toList),
   ("diyarbakır".toList, "Diyarbakır".toList),
   ("kayseri".toList, "Kayseri".toList),
   ("eskişehir".toList, "Eskişehir".toList),
   ("samsun".toList, "Samsun".toList),
   ("denizli".toList, "Denizli".toList),
   ("adapazarı".toList, "Sakarya".toList),
   ("malatya".toList, "Malatya".toList),
   ("kahramanmaraş".toList, "Kahramanmaraş".toList),
   ("erzurum".toList, "Erzurum".toList),
   ("van".toList, "Van".toList),
   ("batman".toList, "Batman".toList),
   ("elazığ".toList, "Elazığ".toList),
   ("erzincan".toList, "Erzincan".toList),
   ("sivas".toList, "Sivas".toList),
   ("çorum".toList, "Çorum".toList),
   ("tokat".toList, "Tokat".toList),
   ("ordu".toList, "Ordu".toList),
   ("giresun".toList, "Giresun".toList),
   ("trabzon".toList, "Trabzon".toList),
   ("rize".toList, "Rize".toList),
   ("artvin".toList, "Artvin".toList),
   ("gümüşhane".toList, "Gümüşhane".toList),
   ("bayburt".toList, "Bayburt".toList),
   ("kastamonu".toList, "Kastamonu".toList),
   ("sinop".toList, "Sinop".toList),
   ("çankırı".toList, "Çankırı".toList),
   ("amasya".toList, "Amasya".toList),
   ("yozgat".toList, "Yozgat".toList),
   ("kırşehir".toList, "Kırşehir".toList),
   ("nevşehir".toList, "Nevşehir".toList),
   ("kırıkkale".toList, "Kırıkkale".toList),
   ("aksaray".toList, "Aksaray".toList),
   ("niğde".toList, "Niğde".toList),
   ("kars".toList, "Kars".toList),
   ("iğdır".toList, "Iğdır".toList),
   ("ağrı".toList, "Ağrı".toList),
   ("muş".toList, "Muş".toList),
   ("bitlis".toList, "Bitlis".toList),
   ("hakkari".toList, "Hakkari".toList),
   ("şırnak".toList, "Şırnak".toList),
   ("mardin".toList, "Mardin".toList),
   ("siirt".toList, "Siirt".toList),
   ("adıyaman".toList, "Adıyaman".toList),
   ("kilis".toList, "Kilis".toList),
   ("osmaniye".toList, "Osmaniye".toList),
   ("hatay".toList, "Hatay".toList),
   ("balıkesir".toList, "Balıkesir".toList),
   ("çanakkale".toList, "Çanakkale".toList),
   ("edirne".toList, "Edirne".toList),
   ("kırklareli".toList, "Kırklareli".toList),
   ("tekirdağ".toList, "Tekirdağ".toList),
   ("bolu".toList, "Bolu".toList),
   ("düzce".toList, "Düzce".toList),
   ("zonguldak".toList, "Zonguldak".toList),
   ("karabük".toList, "Karabük".toList),
   ("bartın".toList, "Bartın".toList),
   ("afyonkarahisar".toList, "Afyonkarahisar".toList),
   ("afyon".toList, "Afyonkarahisar".toList),
   ("kütahya".toList, "Kütahya".toList),
   ("manisa".toList, "Manisa".toList),
   ("uşak".toList, "Uşak".toList),
   ("aydın".toList, "Aydın".toList),
   ("muğla".toList, "Muğla".toList),
   ("burdur".toList, "Burdur".toList),
   ("isparta".toList, "Isparta".toList),
   ("karaman".toList, "Karaman".toList)]

/-- Python `part_lower in CITY_MAPPING` followed by `CITY_MAPPING[part_lower]`:
dictionary lookup. -/
def cityLookup (k : List Char) : Option (List Char) :=
  (CITY_MAPPING.find? (fun kv => decide (kv.fst = k))).map (fun kv => kv.snd)

/-- The partial-match loop of `normalize_city`: iterate over the dict in
insertion order and return the first value whose key contains, or is
contained in, `part_lower`. -/
def partialMatch (pl : List Char) : Option (List Char) :=
  CITY_MAPPING.findSome? (fun kv =>
    if isSubstring kv.fst pl || isSubstring pl kv.fst then some kv.snd
    else none)

/-- One iteration of the `for part in reversed(parts)` body: direct dict
lookup of `part.lower()` first, then the partial-match loop. -/
def matchPart (part : List Char) : Option (List Char) :=
  let pl := pyLower part
  match cityLookup pl with
  | some v => some v
  | none => partialMatch pl

/-- The scan over parts (already reversed by the caller). -/
def scanParts : List (List Char) → Option (List Char)
  | [] => none
  | part :: rest =>
    match matchPart part with
    | some v => some v
    | none => scanParts rest

/-- Translation of `normalize_city` (src/create_birthplace_map.py,
lines 98-123).  Python `None` becomes `none`. -/
def normalize_city (birthplace : List Char) : Option (List Char) :=
  if birthplace = [] ∨ birthplace = "?".toList then none
  else
    let parts := birthplaceParts birthplace
    match scanParts parts.reverse with
    | some v => some v
    | none => if 2 ≤ parts.length then parts.getLast? else parts.head?

/-- The matching relation of claim C1: `part` matches dict key `key`
case-insensitively, exactly or by substring containment in either direction
(an exact match being the special case of mutual containment). -/
def partMatchesKey (part key : List Char) : Prop :=
  key <:+: pyLower part ∨ pyLower part <:+: key

instance (part key : List Char) : Decidable (partMatchesKey part key) := by
  unfold partMatchesKey; infer_instance

lemma matchPart_some {part v : List Char} (h : matchPart part = some v) :
    ∃ kv ∈ CITY_MAPPING, partMatchesKey part kv.fst ∧ v = kv.snd := by
  simp only [matchPart] at h
  cases hl : cityLookup (pyLower part) with
  | some w =>
    rw [hl] at h
    obtain rfl : w = v := by simpa using h
    unfold cityLookup at hl
    cases hf : CITY_MAPPING.find? (fun kv => decide (kv.fst = pyLower part)) with
    | none => rw [hf] at hl; simp at hl
    | some kv =>
      rw [hf] at hl
      have hmem := List.mem_of_find?_eq_some hf
      have hkey : kv.fst = pyLower part := by
        have := List.find?_some hf
        simpa using this
      refine ⟨kv, hmem, Or.inl ?_, by simpa using hl.symm⟩
      rw [hkey]
  | none =>
    rw [hl] at h
    obtain ⟨kv, hmem, hf⟩ := List.exists_of_findSome?_eq_some h
    by_cases hc : isSubstring kv.fst (pyLower part) || isSubstring (pyLower part) kv.fst
    · refine ⟨kv, hmem, ?_, ?_⟩
      · rcases (by simpa using hc :
            isSubstring kv.fst (pyLower part) = true ∨
              isSubstring (pyLower part) kv.fst = true) with h1 | h1
        · exact Or.inl (of_decide_eq_true h1)
        · exact Or.inr (of_decide_eq_true h1)
      · rw [if_pos hc] at hf
        exact (Option.some.inj hf).symm
    · rw [if_neg hc] at hf; exact absurd hf (by simp)

lemma matchPart_none {part : List Char} (h : matchPart part = none) :
    ∀ kv ∈ CITY_MAPPING, ¬ partMatchesKey part kv.fst := by
  intro kv hmem hcontra
  simp only [matchPart] at h
  cases hl : cityLookup (pyLower part) with
  | some w => rw [hl] at h; simp at h
  | none =>
    rw [hl] at h
    have hall := List.findSome?_eq_none_iff.mp h kv hmem
    by_cases hc : isSubstring kv.fst (pyLower part) || isSubstring (pyLower part) kv.fst
    · rw [if_pos hc] at hall; simp at hall
    · have := Bool.or_eq_false_iff.mp (Bool.eq_false_iff.mpr (fun hh => hc hh))
      rcases hcontra with h1 | h1
      · exact absurd (decide_eq_true h1) (Bool.eq_false_iff.mp this.1)
      · exact absurd (decide_eq_true h1) (Bool.eq_false_iff.mp this.2)

lemma scanParts_some :
    ∀ {l : List (List Char)} {v : List Char}, scanParts l = some v →
      ∃ part ∈ l, ∃ kv ∈ CITY_MAPPING, partMatchesKey part kv.fst ∧ v = kv.snd := by
  intro l
  induction l with
  | nil => intro v h; simp [scanParts] at h
  | cons p rest ih =>
    intro v h
    unfold scanParts at h
    cases hm : matchPart p with
    | some w =>
      rw [hm] at h
      obtain rfl : w = v := by simpa using h
      obtain ⟨kv, hmem, hmk, rfl⟩ := matchPart_some hm
      exact ⟨p, List.mem_cons_self _ _, kv, hmem, hmk, rfl⟩
    | none =>
      rw [hm] at h
      obtain ⟨part, hp, kv, hmem, hmk, rfl⟩ := ih h
      exact ⟨part, List.mem_cons_of_mem _ hp, kv, hmem, hmk, rfl⟩

lemma scanParts_none :
    ∀ {l : List (List Char)}, scanParts l = none →
      ∀ part ∈ l, ∀ kv ∈ CITY_MAPPING, ¬ partMatchesKey part kv.fst := by
  intro l
  induction l with
  | nil => intro _ part hp; simp at hp
  | cons p rest ih =>
    intro h part hp kv hmem
    unfold scanParts at h
    cases hm : matchPart p with
    | some w => rw [hm] at h; simp at h
    | none =>
      rw [hm] at h
      rcases List.mem_cons.mp hp with rfl | hp'
      · exact matchPart_none hm kv hmem
      · exact ih h part hp' kv hmem

lemma pySplitComma_ne_nil (l : List Char) : pySplitComma l ≠ [] := by
  induction l with
  | nil => simp [pySplitComma]
  | cons c rest ih =>
    unfold pySplitComma
    by_cases hc : c = ','
    · simp [hc]
    · rw [if_neg hc]
      cases h : pySplitComma rest <;> simp

lemma birthplaceParts_ne_nil (l : List Char) : birthplaceParts l ≠ [] := by
  unfold birthplaceParts
  simpa using pySplitComma_ne_nil (stripCountry l)

lemma last_or_head {α : Type} (l : List α) (h : l ≠ []) :
    (if 2 ≤ l.length then l.getLast? else l.head?) = l.getLast? := by
  match l with
  | [] => exact absurd rfl h
  | [p] => simp
  | p :: q :: rest => simp [List.length_cons]

/-- C1 (amended): for every non-empty birthplace other than `?`, if some
comma-separated part of the suffix-stripped string matches a `CITY_MAPPING`
key — case-insensitively, exactly or by substring containment in either
direction — then `normalize_city` returns the canonical province name mapped
to by a matching key; if no part matches any key, it returns the last
comma-separated part. -/
theorem normalize_city_characterization (birthplace : List Char)
    (hne : birthplace ≠ []) (hq : birthplace ≠ "?".toList) :
    ((∃ part ∈ birthplaceParts birthplace, ∃ kv ∈ CITY_MAPPING,
        partMatchesKey part kv.fst) →
      ∃ kv ∈ CITY_MAPPING,
        (∃ part ∈ birthplaceParts birthplace, partMatchesKey part kv.fst) ∧
          normalize_city birthplace = some kv.snd) ∧
    ((∀ part ∈ birthplaceParts birthplace, ∀ kv ∈ CITY_MAPPING,
        ¬ partMatchesKey part kv.fst) →
      normalize_city birthplace = (birthplaceParts birthplace).getLast?) := by
  have hguard : ¬ (birthplace = [] ∨ birthplace = "?".toList) := by
    rintro (h | h) <;> [exact hne h; exact hq h]
  constructor
  · rintro ⟨part, hpart, kv, hkv, hm⟩
    cases hscan : scanParts (birthplaceParts birthplace).reverse with
    | none =>
      exact absurd hm
        (scanParts_none hscan part (List.mem_reverse.mpr hpart) kv hkv)
    | some v =>
      obtain ⟨part', hp', kv', hkv', hm', rfl⟩ := scanParts_some hscan
      refine ⟨kv', hkv', ⟨part', List.mem_reverse.mp hp', hm'⟩, ?_⟩
      simp only [normalize_city]
      rw [if_neg hguard, hscan]
  · intro hall
    cases hscan : scanParts (birthplaceParts birthplace).reverse with
    | some v =>
      obtain ⟨part', hp', kv', hkv', hm', rfl⟩ := scanParts_some hscan
      exact absurd hm' (hall part' (List.mem_reverse.mp hp') kv' hkv')
    | none =>
      simp only [normalize_city]
      rw [if_neg hguard, hscan]
      exact last_or_head _ (birthplaceParts_ne_nil birthplace)

/-- Witness for C1 at the input `Çankaya, Ankara, Türkiye`, whose part
`Ankara` matches the dict key `ankara`. -/
theorem normalize_city_characterization_witness :
    ∃ kv ∈ CITY_MAPPING,
      (∃ part ∈ birthplaceParts "Çankaya, Ankara, Türkiye".toList,
        partMatchesKey part kv.fst) ∧
      normalize_city "Çankaya, Ankara, Türkiye".toList = some kv.snd :=
  (normalize_city_characterization "Çankaya, Ankara, Türkiye".toList
    (by decide) (by decide)).1 (by decide)

/-- Counterexample to C1 exactly as stated: for the birthplace `?`, no part
matches any key of `CITY_MAPPING`, yet `normalize_city` returns `None`
rather than the last comma-separated part `?`. -/
theorem normalize_city_claim_counterexample :
    (∀ part ∈ birthplaceParts "?".toList, ∀ kv ∈ CITY_MAPPING,
      ¬ partMatchesKey part kv.fst) ∧
    normalize_city "?".toList = none ∧
    (birthplaceParts "?".toList).getLast? = some "?".toList := by
  refine ⟨by decide, by decide, by decide⟩

/-! ## Regex fragments used by `extract_birth_info`
(src/scripts/scrape_biographical_info.py, lines 53-133) -/

/-- Python's regex class `\w` for the characters of this corpus: ASCII
alphanumerics, the underscore, and the Turkish letters.  (Python's `\w` does
not match the combining dot above U+0307.) -/
def pyIsWord (c : Char) : Bool :=
  c.isAlphanum || c = '_' ||
  c = 'ç' || c = 'ğ' || c = 'ı' || c = 'ö' || c = 'ş' || c = 'ü' ||
  c = 'Ç' || c = 'Ğ' || c = 'İ' || c = 'Ö' || c = 'Ş' || c = 'Ü' ||
  c = 'â' || c = 'î' || c = 'û' || c = 'Â' || c = 'Î' || c = 'Û'

/-- A greedy `X+` munch for a deterministic character class: succeed when the
head matches, consuming the maximal run.  (Backtracking to a shorter run is
never needed at the use sites because each following token starts with a
character outside the class.) -/
def munch1 (p : Char → Bool) (s : List Char) : Option (List Char) :=
  match s with
  | c :: rest => if p c then some (rest.dropWhile p) else none
  | [] => none

/-- One attempt of `\b(18\d{2}|19\d{2}|20\d{2})\b` at the current position,
where `prev` is the character just before it (`none` at the start of the
string).  The first matched character is a digit, so the leading `\b` holds
iff `prev` is absent or not a word character. -/
def yearTokenAt (prev : Option Char) (s : List Char) : Option (List Char) :=
  match s with
  | d1 :: d2 :: d3 :: d4 :: rest =>
    if prev.all (fun c => !pyIsWord c) &&
        d1.isDigit && d2.isDigit && d3.isDigit && d4.isDigit &&
        ((d1 = '1' && (d2 = '8' || d2 = '9')) || (d1 = '2' && d2 = '0')) &&
        (match rest with | [] => true | e :: _ => !pyIsWord e) then
      some [d1, d2, d3, d4]
    else none
  | _ => none

/-- The scan of `re.search` for the infobox year pattern: try every start
position left to right. -/
def firstYearTokenAux (prev : Option Char) : List Char → Option (List Char)
  | [] => none
  | c :: rest =>
    match yearTokenAt prev (c :: rest) with
    | some y => some y
    | none => firstYearTokenAux (some c) rest

/-- `re.search(r'\b(18\d{2}|19\d{2}|20\d{2})\b', s)`, returning the matched
year. -/
def firstYearToken (s : List Char) : Option (List Char) :=
  firstYearTokenAux none s

/-- Numeric value of a digit string. -/
def digitsToNat (l : List Char) : Nat :=
  l.foldl (fun n c => 10 * n + (c.toNat - 48)) 0

/-- One attempt of `\d+\s+\w+\s+\d{4}` at the head of `s` (the pattern of the
date-removing `re.sub` in the infobox birthplace fallback); on success return
the remainder after the matched region. -/
def dateWordsMatch (s : List Char) : Option (List Char) :=
  (munch1 Char.isDigit s).bind fun s1 =>
  (munch1 pySpace s1).bind fun s2 =>
  (munch1 pyIsWord s2).bind fun s3 =>
  (munch1 pySpace s3).bind fun s4 =>
  match s4 with
  | a :: b :: c :: d :: rest =>
    if a.isDigit && b.isDigit && c.isDigit && d.isDigit then some rest else none
  | _ => none

lemma munch1_length {p : Char → Bool} {s r : List Char} (h : munch1 p s = some r) :
    r.length < s.length := by
  match s with
  | [] => simp [munch1] at h
  | c :: rest =>
    simp only [munch1] at h
    by_cases hc : p c
    · rw [if_pos hc] at h
      obtain rfl : rest.dropWhile p = r := by simpa using h
      calc (rest.dropWhile p).length ≤ rest.length :=
            (List.dropWhile_sublist p).length_le
        _ < (c :: rest).length := by simp
    · rw [if_neg hc] at h; simp at h

lemma dateWordsMatch_length {s r : List Char} (h : dateWordsMatch s = some r) :
    r.length < s.length := by
  unfold dateWordsMatch at h
  cases h1 : munch1 Char.isDigit s with
  | none => rw [h1] at h; simp at h
  | some s1 =>
    rw [h1, Option.some_bind] at h
    cases h2 : munch1 pySpace s1 with
    | none => rw [h2] at h; simp at h
    | some s2 =>
      rw [h2, Option.some_bind] at h
      cases h3 : munch1 pyIsWord s2 with
      | none => rw [h3] at h; simp at h
      | some s3 =>
        rw [h3, Option.some_bind] at h
        cases h4 : munch1 pySpace s3 with
        | none => rw [h4] at h; simp at h
        | some s4 =>
          rw [h4, Option.some_bind] at h
          have l1 := munch1_length h1
          have l2 := munch1_length h2
          have l3 := munch1_length h3
          have l4 := munch1_length h4
          match s4, h with
          | a :: b :: c :: d :: rest, h =>
            simp only [Option.bind_some] at h
            split at h
            · obtain rfl : rest = r := by simpa using h
              simp only [List.length_cons] at l4
              omega
            · simp at h

/-- `re.sub(r'\d+\s+\w+\s+\d{4}', '', s)`: remove every (leftmost-first)
occurrence of the date pattern. -/
def subDateWords (s : List Char) : List Char :=
  match s with
  | [] => []
  | c :: rest =>
    match hm : dateWordsMatch (c :: rest) with
    | some rem => subDateWords rem
    | none => c :: subDateWords rest
termination_by s.length
decreasing_by
  · exact dateWordsMatch_length hm
  · simp

/-- Scan for the closing parenthesis of the lazy `\(.*?\)`: the remainder
after the first `)`, unless a newline (which `.` cannot cross) comes first. -/
def findClose : List Char → Option (List Char)
  | [] => none
  | c :: rest =>
    if c = ')' then some rest
    else if c = '\n' then none
    else findClose rest

lemma findClose_length {s r : List Char} (h : findClose s = some r) :
    r.length < s.length := by
  induction s with
  | nil => simp [findClose] at h
  | cons c rest ih =>
    unfold findClose at h
    by_cases hc : c = ')'
    · rw [if_pos hc] at h
      obtain rfl : rest = r := by simpa using h
      simp
    · rw [if_neg hc] at h
      by_cases hn : c = '\n'
      · rw [if_pos hn] at h; simp at h
      · rw [if_neg hn] at h
        have := ih h
        calc r.length < rest.length := this
          _ < (c :: rest).length := by simp

/-- `re.sub(r'\(.*?\)', '', s)`: remove every parenthesised group whose
closing parenthesis appears before any newline. -/
def subParens (s : List Char) : List Char :=
  match s with
  | [] => []
  | c :: rest =>
    if c = '(' then
      match hm : findClose rest with
      | some rem => subParens rem
      | none => c :: subParens rest
    else c :: subParens rest
termination_by s.length
decreasing_by
  · exact Nat.lt_trans (findClose_length hm) (by simp)
  · simp
  · simp

/-- Python `', '.join(xs)`. -/
def joinCommaSpace : List (List Char) → List Char
  | [] => []
  | [x] => x
  | x :: y :: rest => x ++ [',', ' '] ++ joinCommaSpace (y :: rest)

/-- `re.match(r'\d+', s)` is truthy iff the first character is a digit. -/
def matchesDigitStart (l : List Char) : Bool :=
  match l with
  | c :: _ => c.isDigit
  | [] => false

/-! ## `extract_birth_info` -/

/-- The text and link texts of an infobox value cell (`td`). -/
structure Cell where
  text : List Char
  links : List (List Char)
deriving DecidableEq

/-- An infobox row: the header (`th`) text if the row has one, and the value
cell (`td`) if the row has one. -/
structure IRow where
  header : Option (List Char)
  value : Option Cell
deriving DecidableEq

/-- The parts of a parsed Wikipedia page that `extract_birth_info` consults:
the infobox rows (when a `table.infobox` exists) and the text of the first
paragraph (when a `p` element exists). -/
structure Soup where
  infobox : Option (List IRow)
  firstPara : Option (List Char)
deriving DecidableEq

/-- The result dict of `extract_birth_info`. -/
structure BirthInfo where
  birth_year : Option (List Char)
  birth_place : Option (List Char)
  birth_date : Option (List Char)
deriving DecidableEq

/-- The initial `birth_info` dict with all three fields `None`. -/
def emptyBirthInfo : BirthInfo :=
  { birth_year := none, birth_place := none, birth_date := none }

/-- Python truthiness of an optional string: `None` and the empty string are
falsy. -/
def pyTruthy : Option (List Char) → Bool
  | none => false
  | some s => !s.isEmpty

/-- The body run for a matching infobox row with a value cell
(src/scripts/scrape_biographical_info.py, lines 81-113): extract the year,
store the full text as `birth_date`, and derive `birth_place` from the cell
links or, failing that, from the date- and parenthesis-stripped text. -/
def applyCell (b : BirthInfo) (cell : Cell) : BirthInfo :=
  let value_text := pyStrip cell.text
  let b1 := match firstYearToken value_text with
    | some y => { b with birth_year := some y }
    | none => b
  let b2 := { b1 with birth_date := some value_text }
  let locations := (cell.links.map pyStrip).filter
    (fun t => !matchesDigitStart t && decide (2 < t.length))
  if locations ≠ [] then { b2 with birth_place := some (joinCommaSpace locations) }
  else
    let place_text := stripDotCommaSpace (subParens (subDateWords value_text))
    if place_text ≠ [] ∧ 2 < place_text.length then
      { b2 with birth_place := some place_text }
    else b2

/-- One iteration of the `for row in rows` loop of `extract_birth_info`. -/
def processInfoRow (b : BirthInfo) : IRow → BirthInfo
  | { header := none, value := _ } => b
  | { header := some h, value := val } =>
    if pyLower (pyStrip h) = "doğum".toList ∨ pyLower (pyStrip h) = "doğ.".toList then
      match val with
      | none => b
      | some cell => applyCell b cell
    else b

/-- The infobox phase of `extract_birth_info`: fold the row loop over the
infobox rows (no-op when the page has no infobox). -/
def infoboxPass (sp : Soup) : BirthInfo :=
  match sp.infobox with
  | none => emptyBirthInfo
  | some rows => rows.foldl processInfoRow emptyBirthInfo

/-! ### The first-paragraph fallback patterns -/

/-- The terminal `(1\d{3}|20\d{2})\b` of the paragraph year pattern
`\b(d\.\s*)?(\d{1,2}\s+\w+\s+)?(1\d{3}|20\d{2})\b` (note: unlike the infobox
pattern, this accepts any `1xxx` year). -/
def paraYearCore (s : List Char) : Option (List Char) :=
  match s with
  | a :: b :: c :: d :: rest =>
    if a.isDigit && b.isDigit && c.isDigit && d.isDigit &&
        (a = '1' || (a = '2' && b = '0')) &&
        (match rest with | [] => true | e :: _ => !pyIsWord e) then
      some [a, b, c, d]
    else none
  | _ => none

/-- The optional `(\d{1,2}\s+\w+\s+)?` followed by the year group.  The
greedy `\d{1,2}` tries two digits, then one, then the group is dropped; the
`\s+` and `\w+` munches are deterministic because the token following each
starts outside its class. -/
def paraYearAfterD (s : List Char) : Option (List Char) :=
  let tail2 := fun (t : List Char) =>
    (munch1 pySpace t).bind fun s2 =>
    (munch1 pyIsWord s2).bind fun s3 =>
    (munch1 pySpace s3).bind paraYearCore
  let withGroup :=
    match s with
    | a :: b :: rest =>
      if a.isDigit then
        let try2 := if b.isDigit then tail2 rest else none
        match try2 with
        | some y => some y
        | none => tail2 (b :: rest)
      else none
    | _ => none
  match withGroup with
  | some y => some y
  | none => paraYearCore s

/-- One attempt of the paragraph year pattern at the current position, after
its leading `\b`.  When the text starts with `d.`, the optional `(d\.\s*)?`
group must be taken: with the group dropped, the next token would have to be
a digit at the letter `d`, which is impossible. -/
def paraYearAttempt (s : List Char) : Option (List Char) :=
  match s with
  | 'd' :: '.' :: rest => paraYearAfterD (rest.dropWhile pySpace)
  | _ => paraYearAfterD s

/-- The `re.search` scan for the paragraph year pattern.  The first consumed
character (`d` or a digit) is a word character, so the leading `\b` holds iff
the previous character is absent or not a word character. -/
def paraYearSearchAux (prev : Option Char) : List Char → Option (List Char)
  | [] => none
  | c :: rest =>
    let attempt :=
      if prev.all (fun p => !pyIsWord p) && pyIsWord c then
        paraYearAttempt (c :: rest)
      else none
    match attempt with
    | some y => some y
    | none => paraYearSearchAux (some c) rest

/-- `re.search(r'\b(d\.\s*)?(\d{1,2}\s+\w+\s+)?(1\d{3}|20\d{2})\b', s)`,
returning group 3 (the year). -/
def paraYearSearch (s : List Char) : Option (List Char) :=
  paraYearSearchAux none s

/-- Handle the tail `\s*([^)]+)` of the paragraph place pattern after its
comma.  The greedy `\s*` munches the whitespace; if a non-`)` character
follows, the group is the run of non-`)` characters from there; otherwise
the engine backtracks one whitespace character into the group. -/
def paraPlaceGroup (t : List Char) : Option (List Char) :=
  let w := t.takeWhile pySpace
  let r := t.dropWhile pySpace
  match r with
  | c :: _ =>
    if c = ')' then
      match w.getLast? with
      | some lastW => some [lastW]
      | none => none
    else some (r.takeWhile (fun x => !(x = ')')))
  | [] =>
    match w.getLast? with
    | some lastW => some [lastW]
    | none => none

/-- One attempt of `d\.\s*\d+[^,]*,\s*([^)]+)` at the head of `s`: the
literal `d.`, optional whitespace, at least one digit, everything up to the
first comma (which `[^,]*` cannot cross), the comma, and then the group. -/
def paraPlaceAttempt (s : List Char) : Option (List Char) :=
  match s with
  | 'd' :: '.' :: rest =>
    let t := rest.dropWhile pySpace
    match munch1 Char.isDigit t with
    | none => none
    | some t1 =>
      match t1.dropWhile (fun c => !(c = ',')) with
      | ',' :: t2 => paraPlaceGroup t2
      | _ => none
  | _ => none

/-- `re.search(r'd\.\s*\d+[^,]*,\s*([^)]+)', s)`, returning group 1. -/
def paraPlaceSearch : List Char → Option (List Char)
  | [] => none
  | c :: rest =>
    match paraPlaceAttempt (c :: rest) with
    | some g => some g
    | none => paraPlaceSearch rest

/-- The first-paragraph fallback block of `extract_birth_info`
(src/scripts/scrape_biographical_info.py, lines 115-131): consulted only
when the infobox pass left `birth_year` or `birth_place` falsy, each inner
pattern guarded by its own falsiness check. -/
def paraConsult (b : BirthInfo) : Option (List Char) → BirthInfo
  | none => b
  | some para =>
    let b1 :=
      if pyTruthy b.birth_year then b
      else match paraYearSearch para with
        | some y => { b with birth_year := some y }
        | none => b
    if pyTruthy b1.birth_place then b1
    else match paraPlaceSearch para with
      | some g => { b1 with birth_place := some (pyStrip g) }
      | none => b1

/-- The guard `if not birth_info['birth_year'] or not birth_info['birth_place']`
in front of the paragraph fallback. -/
def paraFallback (fp : Option (List Char)) (b : BirthInfo) : BirthInfo :=
  if !pyTruthy b.birth_year || !pyTruthy b.birth_place then
    paraConsult b fp
  else b

/-- Translation of `extract_birth_info`
(src/scripts/scrape_biographical_info.py, lines 53-133): run the infobox
pass over the infobox rows, then the first-paragraph fallback. -/
def extract_birth_info (soup : Option Soup) : BirthInfo :=
  match soup with
  | none => emptyBirthInfo
  | some sp => paraFallback sp.firstPara (infoboxPass sp)

/-! ### C3 and C4: how the two phases of `extract_birth_info` interact -/

/-- Whether a row is handled by the `Doğum` branch of the row loop: its
header text strips and lowers to `doğum` or `doğ.`, and the row has a value
cell. -/
def dogumRowWithCell (row : IRow) : Bool :=
  (match row.header with
   | none => false
   | some h =>
     decide (pyLower (pyStrip h) = "doğum".toList) ||
       decide (pyLower (pyStrip h) = "doğ.".toList)) &&
  row.value.isSome

lemma processInfoRow_skip {b : BirthInfo} {row : IRow}
    (h : dogumRowWithCell row = false) : processInfoRow b row = b := by
  obtain ⟨hdr, val⟩ := row
  cases hdr with
  | none => rfl
  | some hd =>
    simp only [processInfoRow]
    by_cases hc : pyLower (pyStrip hd) = "doğum".toList ∨
        pyLower (pyStrip hd) = "doğ.".toList
    · rw [if_pos hc]
      cases val with
      | none => rfl
      | some cell =>
        exfalso
        unfold dogumRowWithCell at h
        rcases hc with hc | hc <;> simp [hc] at h
    · rw [if_neg hc]

lemma processInfoRow_matching {r : IRow} {cell : Cell} (b : BirthInfo)
    (hmatch : dogumRowWithCell r = true) (hcell : r.value = some cell) :
    processInfoRow b r = applyCell b cell := by
  obtain ⟨hdr, val⟩ := r
  obtain rfl : val = some cell := hcell
  unfold dogumRowWithCell at hmatch
  cases hdr with
  | none => simp at hmatch
  | some hd =>
    simp only [Bool.and_eq_true, Bool.or_eq_true, decide_eq_true_eq] at hmatch
    simp only [processInfoRow]
    rw [if_pos hmatch.1]

lemma foldl_processInfoRow_nil {rows : List IRow}
    (h : rows.filter dogumRowWithCell = []) :
    ∀ b : BirthInfo, rows.foldl processInfoRow b = b := by
  induction rows with
  | nil => intro b; rfl
  | cons a rest ih =>
    intro b
    rw [List.filter_cons] at h
    cases ha : dogumRowWithCell a with
    | true => rw [if_pos (by simp [ha])] at h; simp at h
    | false =>
      rw [if_neg (by simp [ha])] at h
      simp only [List.foldl_cons]
      rw [processInfoRow_skip ha]
      exact ih h b

lemma foldl_processInfoRow_single {rows : List IRow} {r : IRow}
    (h : rows.filter dogumRowWithCell = [r]) :
    ∀ b : BirthInfo, rows.foldl processInfoRow b = processInfoRow b r := by
  induction rows with
  | nil => simp at h
  | cons a rest ih =>
    intro b
    rw [List.filter_cons] at h
    cases ha : dogumRowWithCell a with
    | true =>
      rw [if_pos (by simp [ha])] at h
      obtain ⟨rfl, hrest⟩ : a = r ∧ rest.filter dogumRowWithCell = [] := by
        simpa using h
      simp only [List.foldl_cons]
      exact foldl_processInfoRow_nil hrest _
    | false =>
      rw [if_neg (by simp [ha])] at h
      simp only [List.foldl_cons]
      rw [processInfoRow_skip ha]
      exact ih h b

lemma applyCell_birth_date (b : BirthInfo) (cell : Cell) :
    (applyCell b cell).birth_date = some (pyStrip cell.text) := by
  simp only [applyCell]
  cases firstYearToken (pyStrip cell.text) <;> split <;> (try split) <;> rfl

lemma applyCell_birth_year (b : BirthInfo) (cell : Cell) :
    (applyCell b cell).birth_year =
      (match firstYearToken (pyStrip cell.text) with
       | some y => some y
       | none => b.birth_year) := by
  simp only [applyCell]
  cases firstYearToken (pyStrip cell.text) <;> split <;> (try split) <;> rfl

lemma isDigit_toNat {c : Char} (h : c.isDigit = true) :
    48 ≤ c.toNat ∧ c.toNat ≤ 57 := by
  simp only [Char.isDigit, Bool.and_eq_true, decide_eq_true_eq] at h
  obtain ⟨h1, h2⟩ := h
  exact ⟨by exact_mod_cast h1, by exact_mod_cast h2⟩

lemma yearTokenAt_range {prev : Option Char} {s y : List Char}
    (h : yearTokenAt prev s = some y) :
    y.length = 4 ∧ 1800 ≤ digitsToNat y ∧ digitsToNat y ≤ 2099 := by
  match s with
  | [] => simp [yearTokenAt] at h
  | [_] => simp [yearTokenAt] at h
  | [_, _] => simp [yearTokenAt] at h
  | [_, _, _] => simp [yearTokenAt] at h
  | d1 :: d2 :: d3 :: d4 :: rest =>
    simp only [yearTokenAt] at h
    split at h
    case isTrue hcond =>
      obtain rfl : [d1, d2, d3, d4] = y := by simpa using h
      simp only [Bool.and_eq_true, Bool.or_eq_true, decide_eq_true_eq] at hcond
      obtain ⟨⟨⟨⟨⟨⟨-, h1⟩, h2⟩, h3⟩, h4⟩, h5⟩, -⟩ := hcond
      have b3 := isDigit_toNat h3
      have b4 := isDigit_toNat h4
      refine ⟨rfl, ?_⟩
      simp only [digitsToNat, List.foldl]
      rcases h5 with ⟨rfl, h89⟩ | ⟨rfl, rfl⟩
      · have e1 : ('1' : Char).toNat = 49 := rfl
        rcases h89 with rfl | rfl
        · have e2 : ('8' : Char).toNat = 56 := rfl
          rw [e1, e2]; omega
        · have e2 : ('9' : Char).toNat = 57 := rfl
          rw [e1, e2]; omega
      · have e1 : ('2' : Char).toNat = 50 := rfl
        have e2 : ('0' : Char).toNat = 48 := rfl
        rw [e1, e2]; omega
    case isFalse => simp at h

lemma firstYearTokenAux_range :
    ∀ {t : List Char} {prev : Option Char} {y : List Char},
      firstYearTokenAux prev t = some y →
      y.length = 4 ∧ 1800 ≤ digitsToNat y ∧ digitsToNat y ≤ 2099 := by
  intro t
  induction t with
  | nil => intro prev y h; simp [firstYearTokenAux] at h
  | cons c rest ih =>
    intro prev y h
    unfold firstYearTokenAux at h
    cases hy : yearTokenAt prev (c :: rest) with
    | some w =>
      rw [hy] at h
      obtain rfl : w = y := by simpa using h
      exact yearTokenAt_range hy
    | none => rw [hy] at h; exact ih h

lemma firstYearToken_range {s y : List Char} (h : firstYearToken s = some y) :
    y.length = 4 ∧ 1800 ≤ digitsToNat y ∧ digitsToNat y ≤ 2099 :=
  firstYearTokenAux_range h

/-- Invariant of the infobox pass: any stored `birth_year` is a four-digit
Gregorian year in 1800-2099, and any stored `birth_place` is non-empty. -/
def infoboxInv (b : BirthInfo) : Prop :=
  (∀ y, b.birth_year = some y →
    y.length = 4 ∧ 1800 ≤ digitsToNat y ∧ digitsToNat y ≤ 2099) ∧
  (∀ p, b.birth_place = some p → p ≠ [])

lemma joinCommaSpace_ne_nil {x : List Char} {rest : List (List Char)}
    (hx : x ≠ []) : joinCommaSpace (x :: rest) ≠ [] := by
  cases rest with
  | nil => simpa [joinCommaSpace] using hx
  | cons y r => simp [joinCommaSpace]

lemma applyCell_inv {b : BirthInfo} (hb : infoboxInv b) (cell : Cell) :
    infoboxInv (applyCell b cell) := by
  constructor
  · intro y hy
    rw [applyCell_birth_year] at hy
    cases hf : firstYearToken (pyStrip cell.text) with
    | some w =>
      rw [hf] at hy
      obtain rfl : w = y := by simpa using hy
      exact firstYearToken_range hf
    | none => rw [hf] at hy; exact hb.1 y hy
  · intro p hp
    simp only [applyCell] at hp
    set locations := (cell.links.map pyStrip).filter
      (fun t => !matchesDigitStart t && decide (2 < t.length)) with hloc
    by_cases hne : locations ≠ []
    · rw [if_pos hne] at hp
      cases hlc : locations with
      | nil => exact absurd hlc hne
      | cons a t =>
        have ha : a ∈ locations := by rw [hlc]; exact List.mem_cons_self _ _
        have hpred := List.of_mem_filter (by rw [hloc] at ha; exact ha)
        have halen : 2 < a.length := by
          simp only [Bool.and_eq_true, decide_eq_true_eq] at hpred
          exact hpred.2
        have hane : a ≠ [] := by
          intro hh; rw [hh] at halen; simp at halen
        have : p = joinCommaSpace locations := by
          cases hf : firstYearToken (pyStrip cell.text) <;>
            rw [hf] at hp <;> simpa using hp.symm
        rw [this, hlc]
        exact joinCommaSpace_ne_nil hane
    · rw [if_neg hne] at hp
      by_cases hpt : stripDotCommaSpace (subParens (subDateWords (pyStrip cell.text))) ≠ [] ∧
          2 < (stripDotCommaSpace (subParens (subDateWords (pyStrip cell.text)))).length
      · rw [if_pos hpt] at hp
        have : p = stripDotCommaSpace (subParens (subDateWords (pyStrip cell.text))) := by
          cases hf : firstYearToken (pyStrip cell.text) <;>
            rw [hf] at hp <;> simpa using hp.symm
        rw [this]; exact hpt.1
      · rw [if_neg hpt] at hp
        apply hb.2 p
        cases hf : firstYearToken (pyStrip cell.text) <;> rw [hf] at hp <;> simpa using hp

lemma processInfoRow_inv {b : BirthInfo} (hb : infoboxInv b) (row : IRow) :
    infoboxInv (processInfoRow b row) := by
  cases hm : dogumRowWithCell row with
  | false => rw [processInfoRow_skip hm]; exact hb
  | true =>
    have hv : row.value.isSome := by
      unfold dogumRowWithCell at hm
      simp only [Bool.and_eq_true] at hm
      exact hm.2
    obtain ⟨cell, hcell⟩ := Option.isSome_iff_exists.mp hv
    rw [processInfoRow_matching b hm hcell]
    exact applyCell_inv hb cell

lemma infoboxPass_inv (sp : Soup) : infoboxInv (infoboxPass sp) := by
  unfold infoboxPass
  cases sp.infobox with
  | none => exact ⟨fun y hy => by simp [emptyBirthInfo] at hy,
      fun p hp => by simp [emptyBirthInfo] at hp⟩
  | some rows =>
    have : ∀ (l : List IRow) (b : BirthInfo), infoboxInv b →
        infoboxInv (l.foldl processInfoRow b) := by
      intro l
      induction l with
      | nil => intro b hb; exact hb
      | cons a t ih =>
        intro b hb
        simp only [List.foldl_cons]
        exact ih _ (processInfoRow_inv hb a)
    exact this rows emptyBirthInfo
      ⟨fun y hy => by simp [emptyBirthInfo] at hy,
       fun p hp => by simp [emptyBirthInfo] at hp⟩

lemma paraFallback_birth_date (fp : Option (List Char)) (b : BirthInfo) :
    (paraFallback fp b).birth_date = b.birth_date := by
  simp only [paraFallback]
  split
  · cases fp with
    | none => rfl
    | some para =>
      simp only [paraConsult]
      by_cases hy : pyTruthy b.birth_year
      · rw [if_pos hy]
        split
        · rfl
        · cases paraPlaceSearch para <;> rfl
      · rw [if_neg hy]
        cases paraYearSearch para <;>
          · split
            · rfl
            · cases paraPlaceSearch para <;> rfl
  · rfl

lemma paraFallback_year_of_truthy {b : BirthInfo} (fp : Option (List Char))
    (h : pyTruthy b.birth_year = true) :
    (paraFallback fp b).birth_year = b.birth_year := by
  simp only [paraFallback]
  split
  · cases fp with
    | none => rfl
    | some para =>
      simp only [paraConsult]
      rw [if_pos h]
      split
      · rfl
      · cases paraPlaceSearch para <;> rfl
  · rfl

lemma paraFallback_place_of_truthy {b : BirthInfo} (fp : Option (List Char))
    (h : pyTruthy b.birth_place = true) :
    (paraFallback fp b).birth_place = b.birth_place := by
  simp only [paraFallback]
  split
  · cases fp with
    | none => rfl
    | some para =>
      simp only [paraConsult]
      by_cases hy : pyTruthy b.birth_year
      · rw [if_pos hy, if_pos h]
      · rw [if_neg hy]
        cases paraYearSearch para with
        | some y =>
          have h' : pyTruthy ({ b with birth_year := some y } : BirthInfo).birth_place
              = true := h
          rw [if_pos h']
        | none => rw [if_pos h]
  · rfl

lemma paraFallback_of_both {b : BirthInfo} (fp : Option (List Char))
    (hy : pyTruthy b.birth_year = true) (hp : pyTruthy b.birth_place = true) :
    paraFallback fp b = b := by
  simp only [paraFallback]
  rw [if_neg]
  simp [hy, hp]

lemma extract_birth_info_some (sp : Soup) :
    extract_birth_info (some sp) = paraFallback sp.firstPara (infoboxPass sp) := rfl

lemma truthy_of_some_ne_nil {o : Option (List Char)} {v : List Char}
    (h : o = some v) (hne : v ≠ []) : pyTruthy o = true := by
  subst h
  simpa [pyTruthy] using hne

/-- C4: the pattern-matching phases of `extract_birth_info` are sequential
with the infobox taking precedence.  A `birth_year` or `birth_place` the
infobox pass set is never overwritten by the paragraph fallback; when the
infobox pass set both, the fallback is not consulted at all and the result is
exactly the infobox result; and `birth_date` comes from the infobox pass
alone. -/
theorem extract_birth_info_sequential_precedence (sp : Soup) :
    ((infoboxPass sp).birth_year ≠ none →
      (extract_birth_info (some sp)).birth_year = (infoboxPass sp).birth_year) ∧
    ((infoboxPass sp).birth_place ≠ none →
      (extract_birth_info (some sp)).birth_place = (infoboxPass sp).birth_place) ∧
    ((infoboxPass sp).birth_year ≠ none ∧ (infoboxPass sp).birth_place ≠ none →
      extract_birth_info (some sp) = infoboxPass sp) ∧
    (extract_birth_info (some sp)).birth_date = (infoboxPass sp).birth_date := by
  have hinv := infoboxPass_inv sp
  have hyt : (infoboxPass sp).birth_year ≠ none →
      pyTruthy (infoboxPass sp).birth_year = true := by
    intro h
    obtain ⟨y, hy⟩ := Option.ne_none_iff_exists'.mp h
    have hlen := (hinv.1 y hy).1
    exact truthy_of_some_ne_nil hy (by intro hh; rw [hh] at hlen; simp at hlen)
  have hpt : (infoboxPass sp).birth_place ≠ none →
      pyTruthy (infoboxPass sp).birth_place = true := by
    intro h
    obtain ⟨p, hp⟩ := Option.ne_none_iff_exists'.mp h
    exact truthy_of_some_ne_nil hp (hinv.2 p hp)
  refine ⟨fun h => by
            rw [extract_birth_info_some]
            exact paraFallback_year_of_truthy _ (hyt h),
          fun h => by
            rw [extract_birth_info_some]
            exact paraFallback_place_of_truthy _ (hpt h),
          fun h => by
            rw [extract_birth_info_some]
            exact paraFallback_of_both _ (hyt h.1) (hpt h.2),
          by rw [extract_birth_info_some]; exact paraFallback_birth_date _ _⟩

/-- C3: when the infobox has exactly one row whose header strips and lowers
to `doğum` or `doğ.` and that row has a value cell, `extract_birth_info`
sets `birth_date` to the cell's (stripped) full text, sets `birth_year` to
the first `18xx`/`19xx`/`20xx` token of that text whenever one exists, and
any `birth_year` the infobox pass produces lies in 1800-2099 (so an
out-of-range token such as a Hijri year is never accepted from the
infobox). -/
theorem extract_birth_info_dogum_row (sp : Soup) (rows : List IRow) (r : IRow)
    (cell : Cell) (hbox : sp.infobox = some rows)
    (huniq : rows.filter dogumRowWithCell = [r]) (hcell : r.value = some cell) :
    (extract_birth_info (some sp)).birth_date = some (pyStrip cell.text) ∧
    (∀ y, firstYearToken (pyStrip cell.text) = some y →
      (extract_birth_info (some sp)).birth_year = some y ∧
        1800 ≤ digitsToNat y ∧ digitsToNat y ≤ 2099) ∧
    (∀ y, (infoboxPass sp).birth_year = some y →
      1800 ≤ digitsToNat y ∧ digitsToNat y ≤ 2099) := by
  have hr : dogumRowWithCell r = true := by
    have : r ∈ rows.filter dogumRowWithCell := by
      rw [huniq]; exact List.mem_cons_self _ _
    exact List.of_mem_filter this
  have hpass : infoboxPass sp = applyCell emptyBirthInfo cell := by
    unfold infoboxPass
    rw [hbox]
    show List.foldl processInfoRow emptyBirthInfo rows = _
    rw [foldl_processInfoRow_single huniq, processInfoRow_matching _ hr hcell]
  have hinv := infoboxPass_inv sp
  refine ⟨?_, ?_, fun y hy => (hinv.1 y hy).2⟩
  · rw [extract_birth_info_some, paraFallback_birth_date, hpass, applyCell_birth_date]
  · intro y hy
    have hyear : (infoboxPass sp).birth_year = some y := by
      rw [hpass, applyCell_birth_year, hy]
    have hrange := firstYearToken_range hy
    refine ⟨?_, hrange.2.1, hrange.2.2⟩
    rw [extract_birth_info_some,
      paraFallback_year_of_truthy _ (truthy_of_some_ne_nil hyear
        (by intro hh; rw [hh] at hrange; simp at hrange)), hyear]

/-- A concrete page used to witness C3 and C4: one infobox row with header
`Doğum` and value `1 Ocak 1950, Ankara` with a link `Ankara`. -/
def sampleCell : Cell :=
  { text := "1 Ocak 1950, Ankara".toList, links := ["Ankara".toList] }

/-- The sample infobox row. -/
def sampleRow : IRow :=
  { header := some "Doğum".toList, value := some sampleCell }

/-- The sample page. -/
def sampleSoup : Soup :=
  { infobox := some [sampleRow], firstPara := none }

/-- Witness for C3 at the sample page: `birth_date` is the full cell text and
`birth_year` is `1950`. -/
theorem extract_birth_info_dogum_row_witness :
    (extract_birth_info (some sampleSoup)).birth_date =
        some (pyStrip sampleCell.text) ∧
      (extract_birth_info (some sampleSoup)).birth_year = some "1950".toList ∧
      1800 ≤ digitsToNat "1950".toList ∧ digitsToNat "1950".toList ≤ 2099 := by
  have h := extract_birth_info_dogum_row sampleSoup [sampleRow] sampleRow
    sampleCell rfl (by decide) rfl
  have h2 := h.2.1 "1950".toList (by decide)
  exact ⟨h.1, h2.1, h2.2.1, h2.2.2⟩

/-- Witness for C4 at the sample page: the infobox pass set both fields, so
the fallback is not consulted and the result is the infobox result. -/
theorem extract_birth_info_sequential_precedence_witness :
    extract_birth_info (some sampleSoup) = infoboxPass sampleSoup :=
  (extract_birth_info_sequential_precedence sampleSoup).2.2.1
    ⟨by decide, by decide⟩

/-! ## `fetch_person_page` (src/scripts/scrape_biographical_info.py,
lines 38-50)

The network is modelled as an oracle: a stream of outcomes, one per
successive GET request the code might issue.  The function body is a single
`requests.get` followed by `raise_for_status` inside one `try/except`, so it
consumes exactly the first outcome. -/

/-- Outcome of one `requests.get` call: either the call itself raises (DNS
failure, connection error, timeout), or it returns a response with an HTTP
status code and a parsed body. -/
inductive GetOutcome where
  | raises : GetOutcome
  | returns : Nat → Soup → GetOutcome

/-- `response.raise_for_status()` raises `HTTPError` exactly for client and
server error codes (4xx and 5xx). -/
def raiseForStatus (status : Nat) : Bool :=
  decide (400 ≤ status) && decide (status < 600)

/-- Translation of `fetch_person_page` over the network oracle.  The second
component counts the GET attempts performed. -/
def fetch_person_page (network : Nat → GetOutcome) : Option Soup × Nat :=
  match network 0 with
  | GetOutcome.raises => (none, 1)
  | GetOutcome.returns status page =>
    if raiseForStatus status then (none, 1) else (some page, 1)

/-- C5: `fetch_person_page` performs exactly one GET attempt per call,
returns `None` on any exception (a raising GET or an error status raised by
`raise_for_status`) without retrying, and returns the parsed page on
success. -/
theorem fetch_person_page_single_attempt (network : Nat → GetOutcome) :
    (fetch_person_page network).2 = 1 ∧
    (network 0 = GetOutcome.raises → (fetch_person_page network).1 = none) ∧
    (∀ status page, network 0 = GetOutcome.returns status page →
      (raiseForStatus status = true → (fetch_person_page network).1 = none) ∧
      (raiseForStatus status = false →
        (fetch_person_page network).1 = some page)) := by
  refine ⟨?_, ?_, ?_⟩
  · unfold fetch_person_page
    cases network 0 with
    | raises => rfl
    | returns status page => by_cases h : raiseForStatus status <;> simp [h]
  · intro h; unfold fetch_person_page; rw [h]
  · intro status page h
    constructor <;> intro hs <;> unfold fetch_person_page <;> rw [h] <;> simp [hs]

/-- Witness for C5: a GET that returns status 404 yields `None` after one
attempt, and one that returns 200 yields the page after one attempt. -/
theorem fetch_person_page_single_attempt_witness :
    (fetch_person_page (fun _ => GetOutcome.returns 404 sampleSoup)).1 = none ∧
    (fetch_person_page (fun _ => GetOutcome.returns 404 sampleSoup)).2 = 1 ∧
    (fetch_person_page (fun _ => GetOutcome.returns 200 sampleSoup)).1 =
      some sampleSoup :=
  ⟨((fetch_person_page_single_attempt (fun _ => GetOutcome.returns 404 sampleSoup)).2.2
      404 sampleSoup rfl).1 (by decide),
   (fetch_person_page_single_attempt (fun _ => GetOutcome.returns 404 sampleSoup)).1,
   ((fetch_person_page_single_attempt (fun _ => GetOutcome.returns 200 sampleSoup)).2.2
      200 sampleSoup rfl).2 (by decide)⟩

/-! ## `process_table` and `main` (src/scripts/scrape_biographical_info.py,
lines 136-266)

A dataframe row is modelled by the columns the scraper touches; a table
records whether a `wikipedia_link`-like column and a `Başbakan` column
exist.  The network is an oracle mapping a URL to the page
`fetch_person_page` would produce for it (`none` when the fetch fails).
`ScrapeState.fetchLog` is ghost instrumentation recording each URL actually
fetched, in order. -/

/-- One dataframe row: the wikipedia-link cell (`none` models NaN), the
`Başbakan` cell when present, and the three birth columns. -/
structure PRow where
  url : Option (List Char)
  basbakan : Option (List Char)
  birth_year : Option (List Char)
  birth_place : Option (List Char)
  birth_date : Option (List Char)
deriving DecidableEq

/-- One SQLite table / dataframe. -/
structure DTable where
  hasLinkCol : Bool
  hasBasbakanCol : Bool
  rows : List PRow
deriving DecidableEq

/-- `re.search(r'\d{4}', s)`: four consecutive digits occur somewhere. -/
def hasFourDigits : List Char → Bool
  | a :: b :: c :: d :: rest =>
    (a.isDigit && b.isDigit && c.isDigit && d.isDigit) ||
      hasFourDigits (b :: c :: d :: rest)
  | _ => false

/-- The mutable state shared across tables: the `processed_urls` set, plus a
ghost log of the URLs fetched so far. -/
structure ScrapeState where
  processed : List (List Char)
  fetchLog : List (List Char)
deriving DecidableEq

/-- The per-table counters printed by `process_table`. -/
structure Counters where
  newPeople : Nat
  cached : Nat
  skipped : Nat
deriving DecidableEq

/-- The tail of the row loop after the URL passed the validity filters:
skip non-person pages, count an already-processed URL as cached (leaving the
row untouched), and otherwise fetch the page, overwrite the three birth
columns with the extraction result, and mark the URL processed. -/
def processPersonRow (network : List Char → Option Soup) (row : PRow)
    (url : List Char) (st : ScrapeState) (cnt : Counters) :
    PRow × ScrapeState × Counters :=
  if !is_person_page url then
    (row, st, { cnt with skipped := cnt.skipped + 1 })
  else if url ∈ st.processed then
    (row, st, { cnt with cached := cnt.cached + 1 })
  else
    let bi := extract_birth_info (network url)
    ({ row with birth_year := bi.birth_year
                birth_place := bi.birth_place
                birth_date := bi.birth_date },
     { processed := url :: st.processed, fetchLog := st.fetchLog ++ [url] },
     { cnt with newPeople := cnt.newPeople + 1 })

/-- One iteration of the row loop of `process_table` (lines 167-215): skip
rows with a missing or empty URL; on the `prime_minister` table with a
`Başbakan` column additionally skip rows whose `Başbakan` value is missing,
empty, or lacks four consecutive digits. -/
def processOneRow (network : List Char → Option Soup) (isPM : Bool)
    (hasB : Bool) (row : PRow) (st : ScrapeState) (cnt : Counters) :
    PRow × ScrapeState × Counters :=
  match row.url with
  | none => (row, st, cnt)
  | some url =>
    if url = [] then (row, st, cnt)
    else if isPM && hasB then
      match row.basbakan with
      | none => (row, st, cnt)
      | some bb =>
        if bb = [] then (row, st, cnt)
        else if !hasFourDigits bb then
          (row, st, { cnt with skipped := cnt.skipped + 1 })
        else processPersonRow network row url st cnt
    else processPersonRow network row url st cnt

/-- The row loop over a whole table, producing the updated rows positionally
(as `df.at[idx, ...]` does). -/
def processRows (network : List Char → Option Soup) (isPM hasB : Bool) :
    List PRow → ScrapeState → Counters → List PRow × ScrapeState × Counters
  | [], st, cnt => ([], st, cnt)
  | r :: rest, st, cnt =>
    let step := processOneRow network isPM hasB r st cnt
    let tail := processRows network isPM hasB rest step.2.1 step.2.2
    (step.1 :: tail.1, tail.2.1, tail.2.2)

/-- Translation of `process_table`: a table without a wikipedia-link column
is returned unchanged; otherwise run the row loop (adding the birth columns
is a no-op in this model, where every row already carries them). -/
def process_table (network : List Char → Option Soup) (tname : List Char)
    (tbl : DTable) (st : ScrapeState) : DTable × ScrapeState × Counters :=
  if !tbl.hasLinkCol then (tbl, st, ⟨0, 0, 0⟩)
  else
    let isPM := decide (tname = "prime_minister".toList)
    let res := processRows network isPM tbl.hasBasbakanCol tbl.rows st ⟨0, 0, 0⟩
    ({ tbl with rows := res.1 }, res.2.1, res.2.2)

/-- A keyed store of tables: the SQLite database, and likewise the directory
of per-table CSV files (`data/<table>.csv` keyed by table name). -/
def Store : Type := List (List Char × DTable)

/-- Lookup by table name (first binding wins, as in a dict). -/
def storeLookup : Store → List Char → Option DTable
  | [], _ => none
  | (k', v') :: rest, k => if k' = k then some v' else storeLookup rest k

/-- `df.to_sql(..., if_exists='replace')` / `df.to_csv(...)`: replace the
entry for `k` (or append it when absent). -/
def storeSet : Store → List Char → DTable → Store
  | [], k, v => [(k, v)]
  | (k', v') :: rest, k, v =>
    if k' = k then (k, v) :: rest
    else (k', v') :: storeSet rest k v

/-- The loop of `main` (lines 240-255) over the table names: read the table
from the database (a missing table makes `pd.read_sql_query` raise, modelled
as `none`), process it, and write the result both to the database and to the
CSV store.  The returned trace records each written table with its
counters. -/
def mainLoop (network : List Char → Option Soup) :
    List (List Char) → Store → Store → ScrapeState →
    Option (Store × Store × ScrapeState × List (List Char × DTable × Counters))
  | [], db, csv, st => some (db, csv, st, [])
  | t :: rest, db, csv, st =>
    match storeLookup db t with
    | none => none
    | some tbl =>
      let res := process_table network t tbl st
      match mainLoop network rest (storeSet db t res.1) (storeSet csv t res.1)
          res.2.1 with
      | none => none
      | some out => some (out.1, out.2.1, out.2.2.1, (t, res.1, res.2.2) :: out.2.2.2)

/-- Translation of `main`: the table names come from `sqlite_master` (the
keys of the database store), the `processed_urls` set starts empty, and the
pre-existing CSV files are the initial CSV store. -/
def scraper_main (network : List Char → Option Soup) (db csv0 : Store) :
    Option (Store × Store × ScrapeState × List (List Char × DTable × Counters)) :=
  mainLoop network ((db : List (List Char × DTable)).map (fun kv => kv.fst))
    db csv0 ⟨[], []⟩

lemma storeLookup_storeSet_same (s : Store) (k : List Char) (v : DTable) :
    storeLookup (storeSet s k v) k = some v := by
  induction s with
  | nil => simp [storeSet, storeLookup]
  | cons kv rest ih =>
    obtain ⟨k', v'⟩ := kv
    unfold storeSet
    by_cases hk : k' = k
    · rw [if_pos hk]; simp [storeLookup]
    · rw [if_neg hk]
      unfold storeLookup
      rw [if_neg hk]
      exact ih

lemma storeLookup_storeSet_other (s : Store) (k k' : List Char) (v : DTable)
    (h : k' ≠ k) : storeLookup (storeSet s k v) k' = storeLookup s k' := by
  induction s with
  | nil => simp [storeSet, storeLookup, Ne.symm h]
  | cons kv rest ih =>
    obtain ⟨k0, v0⟩ := kv
    unfold storeSet
    by_cases hk : k0 = k
    · rw [if_pos hk]
      subst hk
      unfold storeLookup
      rw [if_neg (Ne.symm h), if_neg (Ne.symm h)]
    · rw [if_neg hk]
      unfold storeLookup
      by_cases h0 : k0 = k'
      · rw [if_pos h0, if_pos h0]
      · rw [if_neg h0, if_neg h0]
        exact ih

lemma mainLoop_preserves (network : List Char → Option Soup) :
    ∀ (names : List (List Char)) (db csv : Store) (st : ScrapeState)
      (out : Store × Store × ScrapeState × List (List Char × DTable × Counters)),
      mainLoop network names db csv st = some out →
      ∀ k, k ∉ names →
        storeLookup out.1 k = storeLookup db k ∧
        storeLookup out.2.1 k = storeLookup csv k := by
  intro names
  induction names with
  | nil =>
    intro db csv st out h k _
    obtain rfl : (db, csv, st, ([] : List (List Char × DTable × Counters))) = out := by
      simpa [mainLoop] using h
    exact ⟨rfl, rfl⟩
  | cons t rest ih =>
    intro db csv st out h k hk
    unfold mainLoop at h
    cases hl : storeLookup db t with
    | none => rw [hl] at h; simp at h
    | some tbl =>
      rw [hl] at h
      simp only [] at h
      cases hrec : mainLoop network rest
          (storeSet db t (process_table network t tbl st).1)
          (storeSet csv t (process_table network t tbl st).1)
          (process_table network t tbl st).2.1 with
      | none => rw [hrec] at h; simp at h
      | some out' =>
        rw [hrec] at h
        obtain rfl : (out'.1, out'.2.1, out'.2.2.1,
            (t, (process_table network t tbl st).1,
              (process_table network t tbl st).2.2) :: out'.2.2.2) = out := by
          simpa using h
        have hk1 : k ∉ rest := fun hh => hk (List.mem_cons_of_mem _ hh)
        have hk2 : k ≠ t := fun hh => hk (hh ▸ List.mem_cons_self _ _)
        obtain ⟨e1, e2⟩ := ih _ _ _ _ hrec k hk1
        exact ⟨by rw [e1, storeLookup_storeSet_other _ _ _ _ hk2],
               by rw [e2, storeLookup_storeSet_other _ _ _ _ hk2]⟩

lemma mainLoop_spec (network : List Char → Option Soup) :
    ∀ (names : List (List Char)) (db csv : Store) (st : ScrapeState),
      (∀ t ∈ names, (storeLookup db t).isSome) → names.Nodup →
      ∃ out : Store × Store × ScrapeState ×
          List (List Char × DTable × Counters),
        mainLoop network names db csv st = some out ∧
        out.2.2.2.map (fun p => p.1) = names ∧
        ∀ p ∈ out.2.2.2,
          storeLookup out.1 p.1 = some p.2.1 ∧
          storeLookup out.2.1 p.1 = some p.2.1 := by
  intro names
  induction names with
  | nil =>
    intro db csv st _ _
    exact ⟨(db, csv, st, []), rfl, rfl, fun p hp => by simp at hp⟩
  | cons t rest ih =>
    intro db csv st hsome hnodup
    obtain ⟨tbl, htbl⟩ := Option.isSome_iff_exists.mp
      (hsome t (List.mem_cons_self _ _))
    have hsome' : ∀ u ∈ rest,
        (storeLookup (storeSet db t (process_table network t tbl st).1) u).isSome := by
      intro u hu
      by_cases hut : u = t
      · rw [hut, storeLookup_storeSet_same]; rfl
      · rw [storeLookup_storeSet_other _ _ _ _ hut]
        exact hsome u (List.mem_cons_of_mem _ hu)
    obtain ⟨out', hrec, hnames, hstores⟩ :=
      ih (storeSet db t (process_table network t tbl st).1)
        (storeSet csv t (process_table network t tbl st).1)
        (process_table network t tbl st).2.1 hsome'
        (List.Nodup.of_cons hnodup)
    refine ⟨(out'.1, out'.2.1, out'.2.2.1,
        (t, (process_table network t tbl st).1,
          (process_table network t tbl st).2.2) :: out'.2.2.2), ?_, ?_, ?_⟩
    · unfold mainLoop
      rw [htbl]
      simp only []
      rw [hrec]
    · simpa using hnames
    · intro p hp
      rcases List.mem_cons.mp hp with rfl | hp'
      · have htni : t ∉ rest := (List.nodup_cons.mp hnodup).1
        have htne : t ∉ out'.2.2.2.map (fun p => p.1) := by rw [hnames]; exact htni
        obtain ⟨e1, e2⟩ := mainLoop_preserves network rest _ _ _ _ hrec t htni
        constructor
        · show storeLookup out'.1 t = _
          rw [e1, storeLookup_storeSet_same]
        · show storeLookup out'.2.1 t = _
          rw [e2, storeLookup_storeSet_same]
      · exact hstores p hp'

/-- C6: one run of the scraper's `main` persists every processed dataframe
to both stores.  Provided the table names in `sqlite_master` are distinct
(as SQLite guarantees), the run succeeds, writes each table exactly once,
and afterwards the SQLite store and the CSV store hold that same processed
table under the table's name. -/
theorem scraper_main_persists (network : List Char → Option Soup)
    (db csv0 : Store)
    (hnodup : ((db : List (List Char × DTable)).map (fun kv => kv.fst)).Nodup) :
    ∃ out : Store × Store × ScrapeState × List (List Char × DTable × Counters),
      scraper_main network db csv0 = some out ∧
      out.2.2.2.map (fun p => p.1) =
        (db : List (List Char × DTable)).map (fun kv => kv.fst) ∧
      ∀ p ∈ out.2.2.2,
        storeLookup out.1 p.1 = some p.2.1 ∧
        storeLookup out.2.1 p.1 = some p.2.1 := by
  apply mainLoop_spec network _ db csv0 ⟨[], []⟩ ?_ hnodup
  intro t ht
  obtain ⟨⟨k, tbl⟩, hmem, hk⟩ := List.mem_map.mp ht
  subst hk
  clear ht hnodup
  induction db with
  | nil => simp at hmem
  | cons kv rest ih =>
    obtain ⟨k0, v0⟩ := kv
    unfold storeLookup
    by_cases h0 : k0 = k
    · rw [if_pos h0]; rfl
    · rw [if_neg h0]
      rcases List.mem_cons.mp hmem with heq | hmem'
      · exact absurd (congrArg Prod.fst heq).symm h0
      · exact ih hmem'

/-- A sample table for the C6 witness: one row with a person-page URL. -/
def wUrl : List Char := "https://tr.wikipedia.org/wiki/Ali_Veli".toList

/-- The sample row. -/
def wRow : PRow := ⟨some wUrl, none, none, none, none⟩

/-- The sample table. -/
def wTable : DTable := ⟨true, false, [wRow]⟩

/-- The sample one-table database. -/
def wDb : Store := [("president".toList, wTable)]

/-- Witness for C6: a run over the sample database succeeds and persists the
processed table to both stores. -/
theorem scraper_main_persists_witness :
    ∃ out : Store × Store × ScrapeState × List (List Char × DTable × Counters),
      scraper_main (fun _ => some sampleSoup) wDb [] = some out ∧
      out.2.2.2.map (fun p => p.1) =
        ((wDb : List (List Char × DTable)).map (fun kv => kv.fst)) ∧
      ∀ p ∈ out.2.2.2,
        storeLookup out.1 p.1 = some p.2.1 ∧
        storeLookup out.2.1 p.1 = some p.2.1 :=
  scraper_main_persists (fun _ => some sampleSoup) wDb [] (by decide)

/-! ### C9: each URL is fetched at most once per run -/

/-- Invariant carried by the scrape state: the fetch log has no duplicates
and every fetched URL is recorded in `processed_urls`. -/
def StInv (st : ScrapeState) : Prop :=
  st.fetchLog.Nodup ∧ ∀ u ∈ st.fetchLog, u ∈ st.processed

lemma processPersonRow_stinv {network row url st cnt} (h : StInv st) :
    StInv (processPersonRow network row url st cnt).2.1 := by
  unfold processPersonRow
  by_cases h1 : is_person_page url
  · rw [if_neg (by simp [h1])]
    by_cases h2 : url ∈ st.processed
    · rw [if_pos h2]; exact h
    · rw [if_neg h2]
      simp only []
      constructor
      · rw [List.nodup_append]
        exact ⟨h.1, List.nodup_singleton url,
          fun u hu hu' => h2 (by
            obtain rfl : u = url := by simpa using hu'
            exact h.2 u hu)⟩
      · intro u hu
        rcases List.mem_append.mp hu with hu' | hu'
        · exact List.mem_cons_of_mem _ (h.2 u hu')
        · obtain rfl : u = url := by simpa using hu'
          exact List.mem_cons_self _ _
  · rw [if_pos (by simp [h1])]; exact h

lemma processOneRow_stinv {network isPM hasB row st cnt} (h : StInv st) :
    StInv (processOneRow network isPM hasB row st cnt).2.1 := by
  unfold processOneRow
  cases row.url with
  | none => exact h
  | some url =>
    simp only []
    by_cases h1 : url = []
    · rw [if_pos h1]; exact h
    · rw [if_neg h1]
      by_cases h2 : (isPM && hasB) = true
      · rw [if_pos h2]
        cases row.basbakan with
        | none => exact h
        | some bb =>
          simp only []
          by_cases h3 : bb = []
          · rw [if_pos h3]; exact h
          · rw [if_neg h3]
            by_cases h4 : hasFourDigits bb
            · rw [if_neg (by simp [h4])]
              exact processPersonRow_stinv h
            · rw [if_pos (by simp [h4])]; exact h
      · rw [if_neg h2]
        exact processPersonRow_stinv h

lemma processRows_stinv {network isPM hasB} :
    ∀ {rows : List PRow} {st : ScrapeState} {cnt : Counters}, StInv st →
      StInv (processRows network isPM hasB rows st cnt).2.1 := by
  intro rows
  induction rows with
  | nil => intro st cnt h; exact h
  | cons r rest ih =>
    intro st cnt h
    unfold processRows
    exact ih (processOneRow_stinv h)

lemma process_table_stinv {network tname tbl st} (h : StInv st) :
    StInv (process_table network tname tbl st).2.1 := by
  unfold process_table
  by_cases h1 : tbl.hasLinkCol
  · rw [if_neg (by simp [h1])]
    exact processRows_stinv h
  · rw [if_pos (by simp [h1])]; exact h

lemma mainLoop_stinv {network : List Char → Option Soup} :
    ∀ {names : List (List Char)} {db csv : Store} {st : ScrapeState}
      {out : Store × Store × ScrapeState × List (List Char × DTable × Counters)},
      StInv st → mainLoop network names db csv st = some out →
      StInv out.2.2.1 := by
  intro names
  induction names with
  | nil =>
    intro db csv st out h hrun
    obtain rfl : (db, csv, st, ([] : List (List Char × DTable × Counters)))
        = out := by simpa [mainLoop] using hrun
    exact h
  | cons t rest ih =>
    intro db csv st out h hrun
    unfold mainLoop at hrun
    cases hl : storeLookup db t with
    | none => rw [hl] at hrun; simp at hrun
    | some tbl =>
      rw [hl] at hrun
      simp only [] at hrun
      cases hrec : mainLoop network rest
          (storeSet db t (process_table network t tbl st).1)
          (storeSet csv t (process_table network t tbl st).1)
          (process_table network t tbl st).2.1 with
      | none => rw [hrec] at hrun; simp at hrun
      | some out' =>
        rw [hrec] at hrun
        obtain rfl : (out'.1, out'.2.1, out'.2.2.1,
            (t, (process_table network t tbl st).1,
              (process_table network t tbl st).2.2) :: out'.2.2.2) = out := by
          simpa using hrun
        show StInv out'.2.2.1
        exact ih (process_table_stinv h) hrec

/-- C9 (amended): within one run of the scraper, every URL is fetched at
most once (the fetch log of a completed run has no duplicates); and a row
whose URL has already been processed — and which reaches the cache check,
i.e. has a non-empty URL, passes the `prime_minister`/`Başbakan` filter and
is a person page — is counted as cached and skipped, leaving the row, the
state (hence the fetch log) and the other counters unchanged. -/
theorem scraper_fetch_once_and_cached :
    (∀ (network : List Char → Option Soup) (db csv0 : Store)
        (out : Store × Store × ScrapeState ×
          List (List Char × DTable × Counters)),
        scraper_main network db csv0 = some out →
        out.2.2.1.fetchLog.Nodup) ∧
    (∀ (network : List Char → Option Soup) (isPM hasB : Bool) (row : PRow)
        (st : ScrapeState) (cnt : Counters) (url : List Char),
        row.url = some url → url ≠ [] →
        ((isPM && hasB) = true →
          ∃ bb, row.basbakan = some bb ∧ bb ≠ [] ∧ hasFourDigits bb = true) →
        is_person_page url = true → url ∈ st.processed →
        processOneRow network isPM hasB row st cnt =
          (row, st, { cnt with cached := cnt.cached + 1 })) := by
  constructor
  · intro network db csv0 out hrun
    exact (mainLoop_stinv ⟨List.nodup_nil, fun u hu => by simp at hu⟩ hrun).1
  · intro network isPM hasB row st cnt url hurl hne hpm hperson hmem
    unfold processOneRow
    rw [hurl]
    simp only []
    rw [if_neg hne]
    have hbranch : processPersonRow network row url st cnt =
        (row, st, { cnt with cached := cnt.cached + 1 }) := by
      unfold processPersonRow
      rw [if_neg (by simp [hperson]), if_pos hmem]
    by_cases h2 : (isPM && hasB) = true
    · rw [if_pos h2]
      obtain ⟨bb, hbb, hbne, hbd⟩ := hpm h2
      rw [hbb]
      simp only []
      rw [if_neg hbne, if_neg (by simp [hbd])]
      exact hbranch
    · rw [if_neg h2]
      exact hbranch

/-- Witness for C9 at a concrete cached row: the URL is already in
`processed_urls`, so the row is returned unchanged, no fetch is logged, and
only the cached counter is incremented. -/
theorem scraper_fetch_once_and_cached_witness :
    processOneRow (fun _ => none) false false wRow
      ⟨[wUrl], [wUrl]⟩ ⟨0, 0, 0⟩ =
      (wRow, ⟨[wUrl], [wUrl]⟩, ⟨0, 1, 0⟩) :=
  scraper_fetch_once_and_cached.2 (fun _ => none) false false wRow
    ⟨[wUrl], [wUrl]⟩ ⟨0, 0, 0⟩ wUrl rfl (by decide)
    (fun h => by simp at h) (by decide) (by decide)

/-- The two-table database showing that a later row carrying an
already-processed URL is not always counted as cached: in the
`prime_minister` table the `Başbakan` filter fires first. -/
def cexTableA : DTable := ⟨true, false, [⟨some wUrl, none, none, none, none⟩]⟩

/-- The `prime_minister` table whose single row carries the same URL but a
`Başbakan` value without four consecutive digits. -/
def cexTablePM : DTable :=
  ⟨true, true, [⟨some wUrl, some "II. İnönü".toList, none, none, none⟩]⟩

/-- The two-table database. -/
def cexDb : Store :=
  [("a".toList, cexTableA), ("prime_minister".toList, cexTablePM)]

/-- Counterexample to C9 exactly as stated: running the scraper on `cexDb`
fetches the URL in table `a` (counters `⟨1, 0, 0⟩`), and the later
`prime_minister` row carries that same, by then processed, URL, yet it is
counted as skipped, not cached (counters `⟨0, 0, 1⟩`), because the `Başbakan`
filter fires before the cache check. -/
theorem scraper_cached_claim_counterexample :
    (scraper_main (fun _ => none) cexDb []).map
        (fun out => out.2.2.2.map (fun p => (p.1, p.2.2))) =
      some [("a".toList, ⟨1, 0, 0⟩), ("prime_minister".toList, ⟨0, 0, 1⟩)] ∧
    (scraper_main (fun _ => none) cexDb []).map
        (fun out => out.2.2.1.processed) = some [wUrl] ∧
    cexTablePM.rows.map PRow.url = [some wUrl] := by
  refine ⟨by decide, by decide, by decide⟩

/-! ## `clean_city_name` and the statistics scripts
(src/analyze_birthplaces.py, src/count_unique_people.py) -/

/-- The country/region names treated as non-city parts by `clean_city_name`
(src/analyze_birthplaces.py, lines 28-29). -/
def cityBlacklist : List (List Char) :=
  ["Türkiye".toList, "Turkey".toList, "Osmanlı".toList, "İmparatorluğu".toList,
   "Devleti".toList, "Makedonya".toList, "Yunanistan".toList, "Bosna".toList,
   "Bulgaristan".toList, "Mısır".toList, "Suriye".toList]

/-- Translation of `clean_city_name` (src/analyze_birthplaces.py,
lines 13-34).  `none` models passing `None`, on which the falsiness guard
fires without raising. -/
def clean_city_name (birthplace : Option (List Char)) : List Char :=
  match birthplace with
  | none => "Unknown".toList
  | some bp =>
    if bp = [] ∨ bp = "?".toList then "Unknown".toList
    else
      let parts := (pySplitComma (stripCountry bp)).map pyStrip
      if 2 ≤ parts.length then
        let city := pyStrip (parts.getLast?.getD [])
        if city ∈ cityBlacklist then
          if 2 ≤ parts.length then pyStrip (parts.dropLast.getLast?.getD [])
          else city
        else city
      else
        match parts with
        | [] => "Unknown".toList
        | p :: _ => pyStrip p

/-- A row of the officials database as the statistics scripts see it. -/
structure SRow where
  birth_place : Option (List Char)
  wikipedia_link : Option (List Char)
deriving DecidableEq

/-- The SQLite database value: named tables of rows. -/
def SDb : Type := List (List Char × List SRow)

/-- Table lookup (mirrors `storeLookup`). -/
def sdbLookup : SDb → List Char → Option (List SRow)
  | [], _ => none
  | (k', v') :: rest, k => if k' = k then some v' else sdbLookup rest k

/-- Table replacement, for the write command. -/
def sdbSet : SDb → List Char → List SRow → SDb
  | [], k, v => [(k, v)]
  | (k', v') :: rest, k, v =>
    if k' = k then (k, v) :: rest
    else (k', v') :: sdbSet rest k v

/-- The SQL commands the statistics scripts issue, plus the write command
(`to_sql`) for contrast. -/
inductive SqlCmd where
  | selectTableNames : SqlCmd
  | selectBirthplaces : List Char → SqlCmd
  | countRows : List Char → SqlCmd
  | countDistinctLinks : List Char → SqlCmd
  | replaceTable : List Char → List SRow → SqlCmd

/-- Results of the commands. -/
inductive SqlResult where
  | names : List (List Char) → SqlResult
  | values : List (List Char) → SqlResult
  | count : Nat → SqlResult
  | written : SqlResult
  | err : SqlResult

/-- The rows returned by
`SELECT birth_place FROM t WHERE birth_place IS NOT NULL AND birth_place != ''`. -/
def selectedBirthplaces (rows : List SRow) : List (List Char) :=
  rows.filterMap (fun r =>
    match r.birth_place with
    | none => none
    | some v => if v = [] then none else some v)

/-- The non-null, non-empty link values of
`SELECT COUNT(DISTINCT wikipedia_link) FROM t WHERE wikipedia_link IS NOT
NULL AND wikipedia_link != ''`. -/
def selectedLinks (rows : List SRow) : List (List Char) :=
  rows.filterMap (fun r =>
    match r.wikipedia_link with
    | none => none
    | some v => if v = [] then none else some v)

/-- The SQL engine: SELECT commands return a result and leave the database
untouched; the write command replaces a table; a SELECT on a missing table
errors (the scripts either catch or never trigger this). -/
def execCmd (db : SDb) : SqlCmd → SDb × SqlResult
  | SqlCmd.selectTableNames =>
    (db, SqlResult.names ((db : List (List Char × List SRow)).map
      (fun kv => kv.fst)))
  | SqlCmd.selectBirthplaces t =>
    match sdbLookup db t with
    | none => (db, SqlResult.err)
    | some rows => (db, SqlResult.values (selectedBirthplaces rows))
  | SqlCmd.countRows t =>
    match sdbLookup db t with
    | none => (db, SqlResult.err)
    | some rows => (db, SqlResult.count rows.length)
  | SqlCmd.countDistinctLinks t =>
    match sdbLookup db t with
    | none => (db, SqlResult.err)
    | some rows => (db, SqlResult.count (selectedLinks rows).dedup.length)
  | SqlCmd.replaceTable t rows => (sdbSet db t rows, SqlResult.written)

/-- `collections.Counter` update `cities[city] += 1`: bump the entry for the
key (insertion order preserved), appending a fresh entry with count 1 when
the key is new. -/
def bumpCounter : List (List Char × Nat) → List Char → List (List Char × Nat)
  | [], k => [(k, 1)]
  | (k', n) :: rest, k =>
    if k' = k then (k', n + 1) :: rest
    else (k', n) :: bumpCounter rest k

/-- The counter built by the loop of `get_table_stats` (lines 44-48). -/
def buildCityCounter (vs : List (List Char)) : List (List Char × Nat) :=
  vs.foldl (fun acc v => bumpCounter acc (clean_city_name (some v))) []

/-- Stable insertion of one entry into a list sorted by non-increasing
count; an entry is placed before the first strictly smaller count, and after
earlier entries with an equal count. -/
def mcInsert (x : List Char × Nat) :
    List (List Char × Nat) → List (List Char × Nat)
  | [] => [x]
  | y :: rest => if y.2 ≤ x.2 then x :: y :: rest else y :: mcInsert x rest

/-- The stable descending sort underlying `Counter.most_common`
(`heapq.nlargest` is documented as equivalent to a stable
`sorted(..., reverse=True)` prefix). -/
def mcSort : List (List Char × Nat) → List (List Char × Nat)
  | [] => []
  | x :: rest => mcInsert x (mcSort rest)

/-- `Counter.most_common(n)`. -/
def mostCommon (n : Nat) (c : List (List Char × Nat)) :
    List (List Char × Nat) :=
  (mcSort c).take n

/-- Translation of `get_table_stats` (src/analyze_birthplaces.py,
lines 37-50): select the non-null, non-empty birthplaces of the table,
count rows per cleaned city name, and return the top five.  The first
component is the database after the run; `none` models the exception a
missing table raises (the caller catches it). -/
def get_table_stats (db : SDb) (t : List Char) :
    SDb × Option (List (List Char × Nat)) :=
  match execCmd db (SqlCmd.selectBirthplaces t) with
  | (db1, SqlResult.values vs) => (db1, some (mostCommon 5 (buildCityCounter vs)))
  | (db1, _) => (db1, none)

/-- Translation of `get_all_stats` (src/analyze_birthplaces.py,
lines 53-71): list the tables, accumulate one counter over all of them (the
bare `try/except` skips tables whose select errors), and return
`most_common()` — the full sorted list.  In this model the database holds no
SQLite-internal tables, so the `NOT LIKE 'sqlite_%'` filter keeps every
name. -/
def get_all_stats (db : SDb) : SDb × List (List Char × Nat) :=
  match execCmd db SqlCmd.selectTableNames with
  | (db0, SqlResult.names ts) =>
    let step := fun (acc : SDb × List (List Char × Nat)) t =>
      match execCmd acc.1 (SqlCmd.selectBirthplaces t) with
      | (db1, SqlResult.values vs) =>
        (db1, vs.foldl (fun c v => bumpCounter c (clean_city_name (some v))) acc.2)
      | (db1, _) => (db1, acc.2)
    let res := ts.foldl step (db0, [])
    (res.1, mcSort res.2)
  | (db0, _) => (db0, [])

/-- Python string comparison (code-point lexicographic), used by
`sorted(tables)`. -/
def lexLe : List Char → List Char → Bool
  | [], _ => true
  | _ :: _, [] => false
  | a :: as, b :: bs =>
    if a.toNat < b.toNat then true
    else if b.toNat < a.toNat then false
    else lexLe as bs

/-- Insertion step of the stable sort for `sorted(tables)`. -/
def lexInsert (x : List Char) : List (List Char) → List (List Char)
  | [] => [x]
  | y :: rest => if lexLe x y then x :: y :: rest else y :: lexInsert x rest

/-- `sorted(tables)`. -/
def lexSort : List (List Char) → List (List Char)
  | [] => []
  | x :: rest => lexInsert x (lexSort rest)

/-- Translation of the counting loop of src/count_unique_people.py
(lines 27-45): for each table, in sorted order, count the rows and the
distinct non-null, non-empty links, and accumulate both totals.  The names
come from `sqlite_master`, so the error branches never fire. -/
def count_unique_run (db : SDb) : SDb × Nat × Nat :=
  match execCmd db SqlCmd.selectTableNames with
  | (db0, SqlResult.names ts) =>
    let step := fun (acc : SDb × Nat × Nat) t =>
      match execCmd acc.1 (SqlCmd.countRows t) with
      | (db1, SqlResult.count n) =>
        match execCmd db1 (SqlCmd.countDistinctLinks t) with
        | (db2, SqlResult.count m) => (db2, acc.2.1 + n, acc.2.2 + m)
        | (db2, _) => (db2, acc.2.1 + n, acc.2.2)
      | (db1, _) => (db1, acc.2.1, acc.2.2)
    (lexSort ts).foldl step (db0, 0, 0)
  | (db0, _) => (db0, 0, 0)

lemma foldl_preserves {σ γ : Type} (f : σ → γ → σ) (g : σ → SDb)
    (h : ∀ s c, g (f s c) = g s) :
    ∀ (l : List γ) (s : σ), g (l.foldl f s) = g s := by
  intro l
  induction l with
  | nil => intro s; rfl
  | cons c rest ih => intro s; rw [List.foldl_cons, ih, h]

lemma execCmd_selectBirthplaces_fst (db : SDb) (t : List Char) :
    (execCmd db (SqlCmd.selectBirthplaces t)).1 = db := by
  unfold execCmd
  simp only []
  cases sdbLookup db t <;> rfl

lemma execCmd_countRows_fst (db : SDb) (t : List Char) :
    (execCmd db (SqlCmd.countRows t)).1 = db := by
  unfold execCmd
  simp only []
  cases sdbLookup db t <;> rfl

lemma execCmd_countDistinctLinks_fst (db : SDb) (t : List Char) :
    (execCmd db (SqlCmd.countDistinctLinks t)).1 = db := by
  unfold execCmd
  simp only []
  cases sdbLookup db t <;> rfl

/-- C7: the statistics-reporting operations issue only SELECT commands, so
every run of `get_table_stats`, `get_all_stats` and the counting loop of
`count_unique_people.py` leaves the database exactly as it found it. -/
theorem stats_scripts_read_only (db : SDb) (t : List Char) :
    (get_table_stats db t).1 = db ∧
    (get_all_stats db).1 = db ∧
    (count_unique_run db).1 = db := by
  refine ⟨?_, ?_, ?_⟩
  · unfold get_table_stats
    have h := execCmd_selectBirthplaces_fst db t
    cases hx : execCmd db (SqlCmd.selectBirthplaces t) with
    | mk db1 r =>
      rw [hx] at h
      cases r <;> simpa using h
  · unfold get_all_stats
    rw [show execCmd db SqlCmd.selectTableNames =
        (db, SqlResult.names ((db : List (List Char × List SRow)).map
          (fun kv => kv.fst))) from rfl]
    refine foldl_preserves _ Prod.fst ?_ _ _
    intro s c
    beta_reduce
    cases hx : execCmd s.1 (SqlCmd.selectBirthplaces c) with
    | mk db1 r =>
      have h := execCmd_selectBirthplaces_fst s.1 c
      rw [hx] at h
      cases r <;> simpa using h
  · unfold count_unique_run
    rw [show execCmd db SqlCmd.selectTableNames =
        (db, SqlResult.names ((db : List (List Char × List SRow)).map
          (fun kv => kv.fst))) from rfl]
    refine foldl_preserves _ Prod.fst ?_ _ _
    intro s c
    beta_reduce
    cases hx : execCmd s.1 (SqlCmd.countRows c) with
    | mk db1 r =>
      have h1 : db1 = s.1 := execCmd_countRows_fst s.1 c ▸ congrArg Prod.fst hx.symm
      cases r with
      | count n =>
        simp only []
        cases hy : execCmd db1 (SqlCmd.countDistinctLinks c) with
        | mk db2 r2 =>
          have h2 : db2 = db1 :=
            execCmd_countDistinctLinks_fst db1 c ▸ congrArg Prod.fst hy.symm
          cases r2 <;> simpa using h2.trans h1
      | names ns => simpa using h1
      | values vs => simpa using h1
      | written => simpa using h1
      | err => simpa using h1

/-! ### C10: totality and output shape of `clean_city_name` -/

lemma rstrip_front (p : Char → Bool) (l : List Char) :
    (l.reverse.dropWhile p).reverse <+: l := by
  have h : l.reverse.dropWhile p <:+ l.reverse := List.dropWhile_suffix p
  have h2 := List.reverse_prefix.mpr h
  rwa [List.reverse_reverse] at h2

lemma pyStrip_sub (l : List Char) : pyStrip l <:+: l := by
  unfold pyStrip
  exact ((rstrip_front pySpace (l.dropWhile pySpace)).isInfix).trans
    (List.dropWhile_suffix pySpace).isInfix

lemma pySplitComma_head_prefix :
    ∀ {l p : List Char} {ps : List (List Char)},
      pySplitComma l = p :: ps → p <+: l := by
  intro l
  induction l with
  | nil =>
    intro p ps h
    unfold pySplitComma at h
    injection h with h1 h2
    subst h1
    exact List.nil_prefix
  | cons c rest ih =>
    intro p ps h
    unfold pySplitComma at h
    by_cases hc : c = ','
    · rw [if_pos hc] at h
      injection h with h1 h2
      subst h1
      exact List.nil_prefix
    · rw [if_neg hc] at h
      cases hs : pySplitComma rest with
      | nil =>
        rw [hs] at h
        injection h with h1 h2
        subst h1
        exact List.cons_prefix_cons.mpr ⟨rfl, List.nil_prefix⟩
      | cons p0 ps0 =>
        rw [hs] at h
        injection h with h1 h2
        subst h1
        exact List.cons_prefix_cons.mpr ⟨rfl, ih hs⟩

lemma pySplitComma_part_sub :
    ∀ {l q : List Char}, q ∈ pySplitComma l → q <:+: l := by
  intro l
  induction l with
  | nil =>
    intro q hq
    unfold pySplitComma at hq
    obtain rfl : q = [] := by simpa using hq
    exact List.nil_infix
  | cons c rest ih =>
    intro q hq
    unfold pySplitComma at hq
    by_cases hc : c = ','
    · rw [if_pos hc] at hq
      rcases List.mem_cons.mp hq with rfl | hq'
      · exact List.nil_infix
      · exact List.infix_cons (ih hq')
    · rw [if_neg hc] at hq
      cases hs : pySplitComma rest with
      | nil =>
        rw [hs] at hq
        obtain rfl : q = [c] := by simpa using hq
        exact (List.cons_prefix_cons.mpr ⟨rfl, List.nil_prefix⟩).isInfix
      | cons p0 ps0 =>
        rw [hs] at hq
        rcases List.mem_cons.mp hq with rfl | hq'
        · exact (List.cons_prefix_cons.mpr
            ⟨rfl, pySplitComma_head_prefix hs⟩).isInfix
        · exact List.infix_cons (ih (by rw [hs]; exact List.mem_cons_of_mem _ hq'))

lemma getLastD_mem {α : Type} (d : α) :
    ∀ (l : List α), l ≠ [] → (l.getLast?).getD d ∈ l := by
  intro l
  induction l with
  | nil => intro h; exact absurd rfl h
  | cons a rest ih =>
    intro _
    cases rest with
    | nil => simp
    | cons b r =>
      rw [List.getLast?_cons_cons]
      exact List.mem_cons_of_mem _ (ih (by simp))

/-- C10: `clean_city_name` is total — on `None`, the empty string and `?` it
returns the sentinel `Unknown` without raising, and on every other input it
returns the strip of a contiguous substring of the suffix-stripped input. -/
theorem clean_city_name_total_characterization :
    clean_city_name none = "Unknown".toList ∧
    clean_city_name (some []) = "Unknown".toList ∧
    clean_city_name (some "?".toList) = "Unknown".toList ∧
    ∀ v : List Char, v ≠ [] → v ≠ "?".toList →
      ∃ p, p <:+: stripCountry v ∧ clean_city_name (some v) = pyStrip p := by
  refine ⟨rfl, rfl, rfl, ?_⟩
  intro v hv hq
  simp only [clean_city_name]
  rw [if_neg (by rintro (h | h); exacts [hv h, hq h])]
  have hparts : (pySplitComma (stripCountry v)).map pyStrip ≠ [] := by
    simpa using pySplitComma_ne_nil (stripCountry v)
  by_cases hlen : 2 ≤ ((pySplitComma (stripCountry v)).map pyStrip).length
  · rw [if_pos hlen]
    by_cases hbl : pyStrip ((((pySplitComma (stripCountry v)).map
        pyStrip).getLast?).getD []) ∈ cityBlacklist
    · rw [if_pos hbl, if_pos hlen]
      have hdne : ((pySplitComma (stripCountry v)).map pyStrip).dropLast ≠ [] := by
        intro h
        have := congrArg List.length h
        rw [List.length_dropLast] at this
        simp only [List.length_nil] at this
        omega
      have hmem2 : ((((pySplitComma (stripCountry v)).map
          pyStrip).dropLast).getLast?).getD [] ∈
          ((pySplitComma (stripCountry v)).map pyStrip).dropLast :=
        getLastD_mem [] _ hdne
      have hmem2' := (List.dropLast_sublist _).subset hmem2
      obtain ⟨raw, hraw, hrawe⟩ := List.mem_map.mp hmem2'
      exact ⟨pyStrip raw,
        (pyStrip_sub raw).trans (pySplitComma_part_sub hraw),
        by rw [hrawe]⟩
    · rw [if_neg hbl]
      have hmem : (((pySplitComma (stripCountry v)).map
          pyStrip).getLast?).getD [] ∈
          (pySplitComma (stripCountry v)).map pyStrip :=
        getLastD_mem [] _ hparts
      obtain ⟨raw, hraw, hrawe⟩ := List.mem_map.mp hmem
      exact ⟨pyStrip raw,
        (pyStrip_sub raw).trans (pySplitComma_part_sub hraw),
        by rw [hrawe]⟩
  · rw [if_neg hlen]
    cases hp : (pySplitComma (stripCountry v)).map pyStrip with
    | nil => exact absurd hp hparts
    | cons p0 rest =>
      have hmem : p0 ∈ (pySplitComma (stripCountry v)).map pyStrip := by
        rw [hp]; exact List.mem_cons_self _ _
      obtain ⟨raw, hraw, hrawe⟩ := List.mem_map.mp hmem
      refine ⟨pyStrip raw,
        (pyStrip_sub raw).trans (pySplitComma_part_sub hraw), ?_⟩
      show pyStrip p0 = pyStrip (pyStrip raw)
      rw [hrawe]

/-- Witness for C10 at the input `Ankara, Türkiye`: the result `Ankara` is
the strip of a substring of the suffix-stripped input. -/
theorem clean_city_name_total_characterization_witness :
    ∃ p, p <:+: stripCountry "Ankara, Türkiye".toList ∧
      clean_city_name (some "Ankara, Türkiye".toList) = pyStrip p :=
  clean_city_name_total_characterization.2.2.2 "Ankara, Türkiye".toList
    (by decide) (by decide)

/-! ### C8: `get_table_stats` returns the five most common cities -/

/-- The keys of a counter, in insertion order. -/
def counterKeys (c : List (List Char × Nat)) : List (List Char) :=
  c.map (fun p => p.1)

/-- `Counter[k]`: the count stored for `k`, zero when absent. -/
def countOf : List (List Char × Nat) → List Char → Nat
  | [], _ => 0
  | (k', n) :: rest, k => if k' = k then n else countOf rest k

lemma countOf_bump_same (acc : List (List Char × Nat)) (k : List Char) :
    countOf (bumpCounter acc k) k = countOf acc k + 1 := by
  induction acc with
  | nil => simp [bumpCounter, countOf]
  | cons p rest ih =>
    obtain ⟨k', n⟩ := p
    unfold bumpCounter
    by_cases hk : k' = k
    · rw [if_pos hk]
      unfold countOf
      rw [if_pos hk, if_pos hk]
    · rw [if_neg hk]
      unfold countOf
      rw [if_neg hk, if_neg hk]
      exact ih

lemma countOf_bump_other (acc : List (List Char × Nat)) {k k' : List Char}
    (h : k' ≠ k) : countOf (bumpCounter acc k) k' = countOf acc k' := by
  induction acc with
  | nil => simp [bumpCounter, countOf, Ne.symm h]
  | cons p rest ih =>
    obtain ⟨k0, n⟩ := p
    unfold bumpCounter
    by_cases hk : k0 = k
    · rw [if_pos hk]
      unfold countOf
      have hne : k0 ≠ k' := fun hh => h (hh ▸ hk)
      rw [if_neg hne, if_neg hne]
    · rw [if_neg hk]
      unfold countOf
      by_cases h0 : k0 = k'
      · rw [if_pos h0, if_pos h0]
      · rw [if_neg h0, if_neg h0]
        exact ih

lemma countOf_build (vs : List (List Char)) :
    ∀ (acc : List (List Char × Nat)) (k : List Char),
      countOf (vs.foldl (fun a v => bumpCounter a (clean_city_name (some v))) acc) k
        = countOf acc k +
          (vs.filter (fun v => decide (clean_city_name (some v) = k))).length := by
  induction vs with
  | nil => intro acc k; simp
  | cons v rest ih =>
    intro acc k
    rw [List.foldl_cons, ih, List.filter_cons]
    by_cases hv : clean_city_name (some v) = k
    · rw [if_pos (by simpa using hv), hv, countOf_bump_same]
      simp only [List.length_cons]
      omega
    · rw [if_neg (by simpa using hv),
        countOf_bump_other acc (fun hh => hv hh.symm)]

lemma bump_keys_sub {acc : List (List Char × Nat)} {k m : List Char}
    (h : m ∈ counterKeys (bumpCounter acc k)) :
    m ∈ counterKeys acc ∨ m = k := by
  induction acc with
  | nil =>
    exact Or.inr (by simpa [bumpCounter, counterKeys] using h)
  | cons p rest ih =>
    obtain ⟨k0, n⟩ := p
    unfold bumpCounter at h
    by_cases hk : k0 = k
    · rw [if_pos hk] at h
      rcases List.mem_cons.mp h with rfl | h'
      · exact Or.inl (List.mem_cons_self _ _)
      · exact Or.inl (List.mem_cons_of_mem _ h')
    · rw [if_neg hk] at h
      rcases List.mem_cons.mp h with rfl | h'
      · exact Or.inl (List.mem_cons_self _ _)
      · rcases ih h' with h'' | h''
        · exact Or.inl (List.mem_cons_of_mem _ h'')
        · exact Or.inr h''

lemma bump_nodup {acc : List (List Char × Nat)} {k : List Char}
    (h : (counterKeys acc).Nodup) :
    (counterKeys (bumpCounter acc k)).Nodup := by
  induction acc with
  | nil => simp [bumpCounter, counterKeys]
  | cons p rest ih =>
    obtain ⟨k0, n⟩ := p
    unfold bumpCounter
    obtain ⟨hhead, hrest⟩ := List.nodup_cons.mp h
    by_cases hk : k0 = k
    · rw [if_pos hk]
      exact h
    · rw [if_neg hk]
      refine List.nodup_cons.mpr ⟨?_, ih hrest⟩
      intro hmem
      rcases bump_keys_sub hmem with h' | h'
      · exact hhead h'
      · exact hk h'

lemma build_nodup (vs : List (List Char)) :
    ∀ acc : List (List Char × Nat), (counterKeys acc).Nodup →
      (counterKeys (vs.foldl
        (fun a v => bumpCounter a (clean_city_name (some v))) acc)).Nodup := by
  induction vs with
  | nil => intro acc h; exact h
  | cons v rest ih =>
    intro acc h
    rw [List.foldl_cons]
    exact ih _ (bump_nodup h)

lemma countOf_eq_of_mem :
    ∀ {c : List (List Char × Nat)} {k : List Char} {n : Nat},
      (counterKeys c).Nodup → (k, n) ∈ c → countOf c k = n := by
  intro c
  induction c with
  | nil => intro k n _ h; simp at h
  | cons p rest ih =>
    intro k n hnd h
    obtain ⟨k0, n0⟩ := p
    obtain ⟨hhead, hrest⟩ := List.nodup_cons.mp hnd
    rcases List.mem_cons.mp h with heq | hmem
    · injection heq with h1 h2
      subst h1
      subst h2
      unfold countOf
      rw [if_pos rfl]
    · unfold countOf
      by_cases hk : k0 = k
      · exfalso
        subst hk
        exact hhead (List.mem_map.mpr ⟨(k0, n), hmem, rfl⟩)
      · rw [if_neg hk]
        exact ih hrest hmem

lemma countOf_eq_zero :
    ∀ {c : List (List Char × Nat)} {k : List Char},
      k ∉ counterKeys c → countOf c k = 0 := by
  intro c
  induction c with
  | nil => intro k _; rfl
  | cons p rest ih =>
    intro k h
    obtain ⟨k0, n0⟩ := p
    unfold countOf
    rw [if_neg (fun hh => h (by rw [← hh]; exact List.mem_cons_self _ _))]
    exact ih (fun hh => h (List.mem_cons_of_mem _ hh))

lemma mcInsert_perm (x : List Char × Nat) :
    ∀ l, List.Perm (mcInsert x l) (x :: l) := by
  intro l
  induction l with
  | nil => exact List.Perm.refl _
  | cons y rest ih =>
    unfold mcInsert
    by_cases hy : y.2 ≤ x.2
    · rw [if_pos hy]
    · rw [if_neg hy]
      exact (ih.cons y).trans (List.Perm.swap x y rest)

lemma mcSort_perm : ∀ l, List.Perm (mcSort l) l := by
  intro l
  induction l with
  | nil => exact List.Perm.refl _
  | cons x rest ih =>
    unfold mcSort
    exact (mcInsert_perm x (mcSort rest)).trans (ih.cons x)

lemma mcInsert_sorted {x : List Char × Nat} {l : List (List Char × Nat)}
    (h : l.Pairwise (fun p q => q.2 ≤ p.2)) :
    (mcInsert x l).Pairwise (fun p q => q.2 ≤ p.2) := by
  induction l with
  | nil => simp [mcInsert]
  | cons y rest ih =>
    obtain ⟨hy, hrest⟩ := List.pairwise_cons.mp h
    unfold mcInsert
    by_cases hc : y.2 ≤ x.2
    · rw [if_pos hc]
      refine List.pairwise_cons.mpr ⟨?_, h⟩
      intro z hz
      rcases List.mem_cons.mp hz with rfl | hz'
      · exact hc
      · exact (hy z hz').trans hc
    · rw [if_neg hc]
      refine List.pairwise_cons.mpr ⟨?_, ih hrest⟩
      intro z hz
      rcases List.mem_cons.mp ((mcInsert_perm x rest).mem_iff.mp hz) with rfl | hz'
      · exact le_of_not_le hc
      · exact hy z hz'

lemma mcSort_sorted : ∀ l, (mcSort l).Pairwise (fun p q => q.2 ≤ p.2) := by
  intro l
  induction l with
  | nil => simp [mcSort]
  | cons x rest ih =>
    unfold mcSort
    exact mcInsert_sorted ih

/-- C8: for a table present in the database, `get_table_stats` returns at
most five `(city, count)` pairs in non-increasing count order, where each
count is exactly the number of non-null, non-empty `birth_place` rows that
clean to that city, and no city outside the returned list has a strictly
greater count than any returned city. -/
theorem get_table_stats_top_five (db : SDb) (t : List Char) (rows : List SRow)
    (h : sdbLookup db t = some rows) :
    ∃ stats, (get_table_stats db t).2 = some stats ∧
      stats.length ≤ 5 ∧
      stats.Pairwise (fun p q => q.2 ≤ p.2) ∧
      (∀ p ∈ stats, p.2 = ((selectedBirthplaces rows).filter
        (fun v => decide (clean_city_name (some v) = p.1))).length) ∧
      (∀ city, city ∉ stats.map (fun p => p.1) → ∀ p ∈ stats,
        ((selectedBirthplaces rows).filter
          (fun v => decide (clean_city_name (some v) = city))).length ≤ p.2) := by
  have hx : execCmd db (SqlCmd.selectBirthplaces t)
      = (db, SqlResult.values (selectedBirthplaces rows)) := by
    simp only [execCmd]
    rw [h]
  have hstats : (get_table_stats db t).2
      = some (mostCommon 5 (buildCityCounter (selectedBirthplaces rows))) := by
    unfold get_table_stats
    rw [hx]
  refine ⟨mostCommon 5 (buildCityCounter (selectedBirthplaces rows)),
    hstats, ?_, ?_, ?_, ?_⟩
  · exact List.length_take_le 5 _
  · exact List.Pairwise.sublist (List.take_sublist 5 _) (mcSort_sorted _)
  · intro p hp
    have hp1 : p ∈ mcSort (buildCityCounter (selectedBirthplaces rows)) :=
      (List.take_sublist 5 _).subset hp
    have hp2 : p ∈ buildCityCounter (selectedBirthplaces rows) :=
      (mcSort_perm _).mem_iff.mp hp1
    have hnd : (counterKeys (buildCityCounter (selectedBirthplaces rows))).Nodup :=
      build_nodup _ [] (by simp [counterKeys])
    have hco : countOf (buildCityCounter (selectedBirthplaces rows)) p.1 = p.2 :=
      countOf_eq_of_mem hnd (by simpa using hp2)
    have hcb := countOf_build (selectedBirthplaces rows) [] p.1
    unfold buildCityCounter at hco
    rw [hcb] at hco
    simpa [countOf] using hco.symm
  · intro city hcity p hp
    have hnd : (counterKeys (buildCityCounter (selectedBirthplaces rows))).Nodup :=
      build_nodup _ [] (by simp [counterKeys])
    have hcb := countOf_build (selectedBirthplaces rows) [] city
    have hcount : ((selectedBirthplaces rows).filter
        (fun v => decide (clean_city_name (some v) = city))).length
        = countOf (buildCityCounter (selectedBirthplaces rows)) city := by
      unfold buildCityCounter
      rw [hcb]
      simp [countOf]
    rw [hcount]
    by_cases hk : city ∈ counterKeys (buildCityCounter (selectedBirthplaces rows))
    · obtain ⟨⟨k0, n0⟩, hmemc, hfst⟩ := List.mem_map.mp hk
      obtain rfl : k0 = city := hfst
      have hco : countOf (buildCityCounter (selectedBirthplaces rows)) k0 = n0 :=
        countOf_eq_of_mem hnd hmemc
      rw [hco]
      have hentry : (k0, n0) ∈ mcSort (buildCityCounter (selectedBirthplaces rows)) :=
        (mcSort_perm _).mem_iff.mpr hmemc
      have hsplit := List.take_append_drop 5
        (mcSort (buildCityCounter (selectedBirthplaces rows)))
      have hpair := mcSort_sorted (buildCityCounter (selectedBirthplaces rows))
      rw [← hsplit] at hpair hentry
      have hnotin : (k0, n0) ∉
          (mcSort (buildCityCounter (selectedBirthplaces rows))).take 5 := by
        intro hmem5
        exact hcity (List.mem_map.mpr ⟨(k0, n0), hmem5, rfl⟩)
      have hdrop : (k0, n0) ∈
          (mcSort (buildCityCounter (selectedBirthplaces rows))).drop 5 := by
        rcases List.mem_append.mp hentry with h5 | h5
        · exact absurd h5 hnotin
        · exact h5
      exact (List.pairwise_append.mp hpair).2.2 p hp (k0, n0) hdrop
    · rw [countOf_eq_zero hk]
      exact Nat.zero_le _

/-- A one-table database for the C8 witness. -/
def statsDb : SDb :=
  [("officials".toList,
    [⟨some "Ankara, Türkiye".toList, none⟩,
     ⟨some "Ankara".toList, none⟩,
     ⟨some "İzmir".toList, none⟩,
     ⟨none, none⟩,
     ⟨some [], none⟩])]

/-- Witness for C8 at `statsDb`. -/
theorem get_table_stats_top_five_witness :
    ∃ stats, (get_table_stats statsDb "officials".toList).2 = some stats ∧
      stats.length ≤ 5 ∧
      stats.Pairwise (fun p q => q.2 ≤ p.2) ∧
      (∀ p ∈ stats, p.2 = ((selectedBirthplaces
          ((statsDb : List (List Char × List SRow)).head!.2)).filter
        (fun v => decide (clean_city_name (some v) = p.1))).length) ∧
      (∀ city, city ∉ stats.map (fun p => p.1) → ∀ p ∈ stats,
        ((selectedBirthplaces
            ((statsDb : List (List Char × List SRow)).head!.2)).filter
          (fun v => decide (clean_city_name (some v) = city))).length ≤ p.2) :=
  get_table_stats_top_five statsDb "officials".toList _ rfl

end EDA
